import Mathlib

/-!
Dialogue engine: edit distance, edge selection and session migration.

A shallow embedding of `src/chatbot.cpp` and `src/graphnode.cpp`.

* A `char` is a `Char`, a `std::string` a `List Char`, a `std::vector<T>` a `List T`; the
  size of a container is the length of the list.
* Arithmetic on `size_t` is reduced modulo `2^64`; an `int` obtained from a `size_t` is
  the two's complement value `toInt`, and an `int` used as an index goes back through
  `toSize`.
* Pointers are `Option Nat`: `none` is `nullptr`, `some k` the address of the
  `k`-th object of the corresponding table of the heap.
* A call ends in an `Outcome`: it returns, it throws, or its behaviour is undefined.
* The generator seeded from the clock at line 165 is an argument `rnd` of the calls.
-/

/-! ## Machine integers -/

/-- Number of values of a 64 bit `size_t`. -/
def SIZE_MOD : Nat := 2 ^ 64

/-- Addition on `size_t`. -/
def sizeAdd (a b : Nat) : Nat := (a + b) % SIZE_MOD

/-- Subtraction on `size_t` (wraps below zero). -/
def sizeSub (a b : Nat) : Nat := (a + SIZE_MOD - b % SIZE_MOD) % SIZE_MOD

/-- Conversion of a `size_t` to a 32 bit two's complement `int`. -/
def toInt (x : Nat) : Int :=
  if x % 2 ^ 32 < 2 ^ 31 then ((x % 2 ^ 32 : Nat) : Int) else ((x % 2 ^ 32 : Nat) : Int) - 2 ^ 32

/-- Conversion of an `int` to a `size_t`. -/
def toSize (x : Int) : Nat := (x % (2 ^ 64 : Int)).toNat

/-! ## `ChatBot::ComputeLevenshteinDistance` -/

/-- The C library routine `toupper` on a `char`, in the "C" locale. -/
def toupper (c : Char) : Char := c.toUpper

/-- The inner `for` loop of `ComputeLevenshteinDistance` (lines 200-214): `c1` is `*it1`,
the list is what `it2` still has to visit, `j`, `corner` and `costs` are the local
variables of the same names. -/
def innerLoop (c1 : Char) : List Char → Nat → Nat → List Nat → List Nat
  | [], _, _, costs => costs
  | c2 :: rest, j, corner, costs =>
    let upper := costs.getD (j + 1) 0
    let costs1 :=
      if c1 = c2 then
        costs.set (j + 1) corner
      else
        let t := if upper < corner then upper else corner
        costs.set (j + 1) (sizeAdd (if costs.getD j 0 < t then costs.getD j 0 else t) 1)
    innerLoop c1 rest (sizeAdd j 1) upper costs1

/-- The outer `for` loop of `ComputeLevenshteinDistance` (lines 194-215): the first list is
what `it1` still has to visit, `s2` the whole second string. -/
def outerLoop (s2 : List Char) : List Char → Nat → List Nat → List Nat
  | [], _, costs => costs
  | c1 :: rest, i, costs =>
    let costs0 := costs.set 0 (sizeAdd i 1)
    let corner := i
    outerLoop s2 rest (sizeAdd i 1) (innerLoop c1 s2 0 corner costs0)

/-- The `size_t` value `ComputeLevenshteinDistance` holds when it returns (lines 176-217),
before the conversion to `int`. -/
def levenshteinCost (s1 s2 : List Char) : Nat :=
  let s1 := s1.map toupper
  let s2 := s2.map toupper
  let m := s1.length
  let n := s2.length
  if m = 0 then n
  else if n = 0 then m
  else
    let costs := List.range (n + 1)
    (outerLoop s2 s1 0 costs).getD n 0

/-- Model of `ChatBot::ComputeLevenshteinDistance`: the cost, returned as an `int`. -/
def ComputeLevenshteinDistance (s1 s2 : List Char) : Int :=
  toInt (levenshteinCost s1 s2)


/-! ## The edit distance of the specification -/

/-- One single-character edit: an insertion, a deletion or a substitution (by a different
character) at any place of the string. -/
inductive EditStep : List Char → List Char → Prop
  | insertion (l r : List Char) (c : Char) : EditStep (l ++ r) (l ++ c :: r)
  | deletion (l r : List Char) (c : Char) : EditStep (l ++ c :: r) (l ++ r)
  | substitution (l r : List Char) (c d : Char) (hcd : c ≠ d) :
      EditStep (l ++ c :: r) (l ++ d :: r)

/-- Relation `EditsIn n a b`: some sequence of `n` single-character edits turns `a` into `b`. -/
inductive EditsIn : Nat → List Char → List Char → Prop
  | done (a : List Char) : EditsIn 0 a a
  | next {n : Nat} {a b c : List Char} : EditStep a b → EditsIn n b c → EditsIn (n + 1) a c

/-- The recurrence of the dynamic program, on whole strings; used to relate the rolling
row of the code to `EditsIn`. -/
def lev : List Char → List Char → Nat
  | [], ys => ys.length
  | x :: xs, [] => (x :: xs).length
  | x :: xs, y :: ys =>
    if x = y then lev xs ys
    else min (lev (x :: xs) ys) (min (lev xs (y :: ys)) (lev xs ys)) + 1
termination_by xs ys => xs.length + ys.length

/-! ## `std::sort` as called at line 145

`std::sort` belongs to the C++ library, not to the repository.  It is specified by its
postcondition only (the range is permuted into ascending order for the comparator; the
relative order of equivalent elements is not promised).  `ReceiveMessageFromUser` below
therefore takes the sort routine as an argument.  `std_sort` is the routine of the GNU
C++ library (`bits/stl_algo.h`, `bits/stl_heap.h`), followed function by function on a
vector of `EdgeDist`, with iterators as positions in the vector. -/

/-- The pair `std::pair<GraphEdge *, int>` of line 127: the edge is named by its position
in the child edge list of the current node. -/
abbrev EdgeDist := Nat × Int

/-- The comparator of line 145: `a.second < b.second`. -/
def comp (a b : EdgeDist) : Bool := decide (a.2 < b.2)

/-- Read of `*(begin + i)`. -/
def rd (v : List EdgeDist) (i : Nat) : EdgeDist := v.getD i (0, 0)

/-- Library routine `std::iter_swap`. -/
def iter_swap (v : List EdgeDist) (i j : Nat) : List EdgeDist :=
  (v.set i (rd v j)).set j (rd v i)

/-- Library routine `std::__lg`: the floor of the binary logarithm. -/
def lgLoop : Nat → Nat → Nat
  | 0, _ => 0
  | fuel + 1, n => if 2 ≤ n then lgLoop fuel (n / 2) + 1 else 0

/-- Library routine `std::__lg`. -/
def lg (n : Nat) : Nat := lgLoop n n

/-- Library routine `std::__move_median_to_first`. -/
def move_median_to_first (v : List EdgeDist) (result a b c : Nat) : List EdgeDist :=
  if comp (rd v a) (rd v b) then
    if comp (rd v b) (rd v c) then iter_swap v result b
    else if comp (rd v a) (rd v c) then iter_swap v result c
    else iter_swap v result a
  else if comp (rd v a) (rd v c) then iter_swap v result a
  else if comp (rd v b) (rd v c) then iter_swap v result c
  else iter_swap v result b

/-- The loop `while (__comp(__first, __pivot)) ++__first;` of `__unguarded_partition`. -/
def scanUp (v : List EdgeDist) (pivot : Nat) : Nat → Nat → Nat
  | 0, first => first
  | fuel + 1, first =>
    if comp (rd v first) (rd v pivot) then scanUp v pivot fuel (first + 1) else first

/-- The loop `while (__comp(__pivot, __last)) --__last;` of `__unguarded_partition`. -/
def scanDown (v : List EdgeDist) (pivot : Nat) : Nat → Nat
  | 0 => 0
  | last + 1 => if comp (rd v pivot) (rd v (last + 1)) then scanDown v pivot last else last + 1

/-- Library routine `std::__unguarded_partition`; the first argument bounds the number of rounds of the
outer loop. -/
def unguarded_partition (pivot : Nat) : Nat → List EdgeDist → Nat → Nat → List EdgeDist × Nat
  | 0, v, first, _ => (v, first)
  | fuel + 1, v, first, last =>
    let first1 := scanUp v pivot v.length first
    let last1 := scanDown v pivot (last - 1)
    if first1 < last1 then
      unguarded_partition pivot fuel (iter_swap v first1 last1) (first1 + 1) last1
    else (v, first1)

/-- Library routine `std::__unguarded_partition_pivot`. -/
def unguarded_partition_pivot (v : List EdgeDist) (first last : Nat) : List EdgeDist × Nat :=
  let mid := first + (last - first) / 2
  let v1 := move_median_to_first v first (first + 1) mid (last - 1)
  unguarded_partition first v.length v1 (first + 1) last

/-- Library routine `std::__push_heap`; the first argument bounds the number of rounds of the loop. -/
def push_heap (first topIndex : Nat) (value : EdgeDist) : Nat → List EdgeDist → Nat → List EdgeDist
  | 0, v, holeIndex => v.set (first + holeIndex) value
  | fuel + 1, v, holeIndex =>
    let parent := (holeIndex - 1) / 2
    if topIndex < holeIndex ∧ comp (rd v (first + parent)) value then
      push_heap first topIndex value fuel (v.set (first + holeIndex) (rd v (first + parent))) parent
    else v.set (first + holeIndex) value

/-- The first loop of `std::__adjust_heap`: returns the vector, `__holeIndex` and
`__secondChild`. -/
def adjust_heap_loop (first len : Nat) :
    Nat → List EdgeDist → Nat → Nat → List EdgeDist × Nat × Nat
  | 0, v, holeIndex, secondChild => (v, holeIndex, secondChild)
  | fuel + 1, v, holeIndex, secondChild =>
    if secondChild < (len - 1) / 2 then
      let sc := 2 * (secondChild + 1)
      let sc1 := if comp (rd v (first + sc)) (rd v (first + (sc - 1))) then sc - 1 else sc
      adjust_heap_loop first len fuel (v.set (first + holeIndex) (rd v (first + sc1))) sc1 sc1
    else (v, holeIndex, secondChild)

/-- Library routine `std::__adjust_heap`. -/
def adjust_heap (v : List EdgeDist) (first holeIndex len : Nat) (value : EdgeDist) :
    List EdgeDist :=
  let topIndex := holeIndex
  let (v1, hole1, sc1) := adjust_heap_loop first len len v holeIndex holeIndex
  if len % 2 = 0 ∧ 2 ≤ len ∧ sc1 = (len - 2) / 2 then
    let sc2 := 2 * (sc1 + 1)
    let v2 := v1.set (first + hole1) (rd v1 (first + (sc2 - 1)))
    push_heap first topIndex value len v2 (sc2 - 1)
  else push_heap first topIndex value len v1 hole1

/-- Library routine `std::__pop_heap`. -/
def pop_heap (v : List EdgeDist) (first last result : Nat) : List EdgeDist :=
  let value := rd v result
  adjust_heap (v.set result (rd v first)) first 0 (last - first) value

/-- The loop of `std::__make_heap`, counting `__parent` down to zero. -/
def make_heap_loop (first len : Nat) : Nat → List EdgeDist → List EdgeDist
  | 0, v => adjust_heap v first 0 len (rd v first)
  | parent + 1, v =>
    make_heap_loop first len parent (adjust_heap v first (parent + 1) len (rd v (first + (parent + 1))))

/-- Library routine `std::__make_heap`. -/
def make_heap (v : List EdgeDist) (first last : Nat) : List EdgeDist :=
  if last - first < 2 then v else make_heap_loop first (last - first) ((last - first - 2) / 2) v

/-- Library routine `std::__sort_heap`: the argument counts the elements still in the heap. -/
def sort_heap (first : Nat) : Nat → List EdgeDist → List EdgeDist
  | 0, v => v
  | n + 1, v =>
    if 1 < n + 1 then sort_heap first n (pop_heap v first (first + n) (first + n)) else v

/-- The loop of `std::__heap_select` over `[__middle, __last)`. -/
def heap_select_loop (first middle : Nat) : Nat → Nat → List EdgeDist → List EdgeDist
  | 0, _, v => v
  | n + 1, i, v =>
    heap_select_loop first middle n (i + 1)
      (if comp (rd v i) (rd v first) then pop_heap v first middle i else v)

/-- Library routine `std::__partial_sort`: `__heap_select` followed by `__sort_heap`. -/
def partial_sort (v : List EdgeDist) (first middle last : Nat) : List EdgeDist :=
  let v1 := heap_select_loop first middle (last - middle) middle (make_heap v first middle)
  sort_heap first (middle - first) v1

/-- Library routine `std::__introsort_loop`, by recursion on `__depth_limit`. -/
def introsort_loop : Nat → List EdgeDist → Nat → Nat → List EdgeDist
  | 0, v, first, last => if 16 < last - first then partial_sort v first last last else v
  | depth + 1, v, first, last =>
    if 16 < last - first then
      let (v1, cut) := unguarded_partition_pivot v first last
      introsort_loop depth (introsort_loop depth v1 cut last) first cut
    else v

/-- The loop of `std::__unguarded_linear_insert`: the numeric argument is `__last`. -/
def unguarded_linear_insert_loop (val : EdgeDist) : Nat → List EdgeDist → List EdgeDist
  | 0, v => v.set 0 val
  | next + 1, v =>
    if comp val (rd v next) then
      unguarded_linear_insert_loop val next (v.set (next + 1) (rd v next))
    else v.set (next + 1) val

/-- Library routine `std::__unguarded_linear_insert`. -/
def unguarded_linear_insert (v : List EdgeDist) (last : Nat) : List EdgeDist :=
  unguarded_linear_insert_loop (rd v last) last v

/-- Library routine `std::move_backward(first, first + n, first + n + 1)`. -/
def move_backward (first : Nat) : Nat → List EdgeDist → List EdgeDist
  | 0, v => v
  | n + 1, v => move_backward first n (v.set (first + n + 1) (rd v (first + n)))

/-- The loop of `std::__insertion_sort`: the first numeric argument counts the positions
still to visit, the second is `__i`. -/
def insertion_sort_loop (first : Nat) : Nat → Nat → List EdgeDist → List EdgeDist
  | 0, _, v => v
  | r + 1, i, v =>
    insertion_sort_loop first r (i + 1)
      (if comp (rd v i) (rd v first) then (move_backward first (i - first) v).set first (rd v i)
       else unguarded_linear_insert v i)

/-- Library routine `std::__insertion_sort`. -/
def insertion_sort (v : List EdgeDist) (first last : Nat) : List EdgeDist :=
  if first = last then v else insertion_sort_loop first (last - (first + 1)) (first + 1) v

/-- Library routine `std::__unguarded_insertion_sort`. -/
def unguarded_insertion_sort : Nat → Nat → List EdgeDist → List EdgeDist
  | 0, _, v => v
  | r + 1, i, v => unguarded_insertion_sort r (i + 1) (unguarded_linear_insert v i)

/-- Library routine `std::__final_insertion_sort`. -/
def final_insertion_sort (v : List EdgeDist) (first last : Nat) : List EdgeDist :=
  if 16 < last - first then
    unguarded_insertion_sort (last - (first + 16)) (first + 16) (insertion_sort v first (first + 16))
  else insertion_sort v first last

/-- Library routine `std::sort(levDists.begin(), levDists.end(), comp)` in the GNU C++ library. -/
def std_sort (v : List EdgeDist) : List EdgeDist :=
  if v.length = 0 then v
  else final_insertion_sort (introsort_loop (lg v.length * 2) v 0 v.length) 0 v.length

/-! ## The object model: `ChatBot`, `GraphEdge`, `GraphNode`, `ChatLogic` -/

/-- A `std::string`. -/
abbrev CxxString := List Char

/-- The data members of `ChatBot` the code reads and writes.  `_image` is the
`std::unique_ptr<wxBitmap>`: `none` when it owns nothing, `some b` when it owns bitmap `b`.
The three raw pointers name a node of the graph or the chat logic by address. -/
structure ChatBot where
  _image : Option Nat
  _currentNode : Option Nat
  _rootNode : Option Nat
  _chatLogic : Option Nat
deriving DecidableEq

/-- The data members of `GraphEdge` read through `GetKeywords` and `GetChildNode`
(`graphedge.h` is not among the sources). -/
structure GraphEdge where
  _keywords : List CxxString
  _childNode : Option Nat
deriving DecidableEq

/-- The data members of `GraphNode`: the owned child edges, the session slot `_chatBot`
(a `ChatBot` held by value), the id and the answers. -/
structure GraphNode where
  _childEdges : List GraphEdge
  _chatBot : ChatBot
  _id : Int
  _answers : List CxxString
deriving DecidableEq

/-- Modelled from the spec: `ChatLogic` (`chatlogic.cpp` is not among the sources).  Its
`_chatBot` handle is what `SetChatbotHandle` stores, given as the node whose session slot
it points to; `sent` lists, oldest first, the texts passed to `SendMessageToUser`, the
"outbound callback/sink invoked once per turn with the chosen reply text". -/
structure ChatLogic where
  _chatBot : Option Nat
  sent : List CxxString
deriving DecidableEq

/-- The heap: the nodes of the graph and the chat logic objects, each at the address equal
to its position. -/
structure Heap where
  nodes : List GraphNode
  logics : List ChatLogic
deriving DecidableEq

/-- How a call ends: it returns with the heap `ok h`, an exception leaves it with the heap
`thrown h`, or its behaviour is undefined (a null or dangling pointer is dereferenced, a
library precondition is violated). -/
inductive Outcome where
  | ok (h : Heap)
  | thrown (h : Heap)
  | undefined
deriving DecidableEq

/-- Sequencing of two calls: the second runs only when the first returned. -/
def Outcome.andThen (o : Outcome) (f : Heap → Outcome) : Outcome :=
  match o with
  | .ok h => f h
  | .thrown h => .thrown h
  | .undefined => .undefined

/-- Assignment to the `_chatBot` member of node `k`. -/
def Heap.setChatBot (h : Heap) (k : Nat) (cb : ChatBot) : Heap :=
  match h.nodes[k]? with
  | none => h
  | some n => { h with nodes := h.nodes.set k { n with _chatBot := cb } }

/-- Model of `ChatBot::ChatBot()` (lines 12-17): the two handles it assigns are null and the
`unique_ptr` is empty; `_currentNode` is not assigned, so it keeps whatever `stale` value
the storage held. -/
def ChatBot.new (stale : Option Nat) : ChatBot :=
  { _image := none, _currentNode := stale, _rootNode := none, _chatLogic := none }

/-- Model of `ChatBot::ChatBot(ChatBot &&)` (lines 78-93): the new object and the source after
the call. -/
def ChatBot.moveConstruct (src : ChatBot) : ChatBot × ChatBot :=
  ({ _chatLogic := src._chatLogic, _rootNode := src._rootNode,
     _currentNode := src._currentNode, _image := src._image },
   { _chatLogic := none, _rootNode := none, _currentNode := none, _image := none })

/-- Model of `ChatBot::operator=(ChatBot &&)` (lines 95-115): the assigned object and the source
after the call; `same` tells whether `&src == this`. -/
def ChatBot.moveAssign (this src : ChatBot) (same : Bool) : ChatBot × ChatBot :=
  if same then (this, this)
  else
    ({ _chatLogic := src._chatLogic, _rootNode := src._rootNode,
       _currentNode := src._currentNode, _image := src._image },
     { _chatLogic := none, _rootNode := none, _currentNode := none, _image := none })

/-- Model of `ChatBot::ChatBot(const ChatBot &)` (lines 41-59): the new object and the
source after the call, or `none` when the behaviour is undefined.  Line 50 dereferences
the image pointer of the source, `*(src._image)`, which must own a bitmap; `fresh` is
the address of the `wxBitmap` that `make_unique` creates.  The source is `const`. -/
def ChatBot.copyConstruct (src : ChatBot) (fresh : Nat) : Option (ChatBot × ChatBot) :=
  match src._image with
  | none => none
  | some _ =>
    some ({ _chatLogic := src._chatLogic, _rootNode := src._rootNode,
            _currentNode := src._currentNode, _image := some fresh }, src)

/-- Model of `ChatBot::operator=(const ChatBot &)` (lines 61-76): the assigned object and
the source after the call, or `none` when the behaviour is undefined; `same` tells whether
`&src == this`, and line 72 dereferences the image pointer of the source. -/
def ChatBot.copyAssign (this src : ChatBot) (same : Bool) (fresh : Nat) :
    Option (ChatBot × ChatBot) :=
  if same then some (this, this)
  else
    match src._image with
    | none => none
    | some _ =>
      some ({ _chatLogic := src._chatLogic, _rootNode := src._rootNode,
              _currentNode := src._currentNode, _image := some fresh }, src)

/-- Modelled from the spec: `ChatLogic::SetChatbotHandle`, called on the chat logic at
address `logic` with the address of the session slot of node `slot`. -/
def SetChatbotHandle (h : Heap) (logic : Option Nat) (slot : Nat) : Outcome :=
  match logic with
  | none => .undefined
  | some l =>
    match h.logics[l]? with
    | none => .undefined
    | some cl => .ok { h with logics := h.logics.set l { cl with _chatBot := some slot } }

/-- Modelled from the spec: `ChatLogic::SendMessageToUser`, the message sink. -/
def SendMessageToUser (h : Heap) (logic : Option Nat) (message : CxxString) : Outcome :=
  match logic with
  | none => .undefined
  | some l =>
    match h.logics[l]? with
    | none => .undefined
    | some cl => .ok { h with logics := h.logics.set l { cl with sent := cl.sent ++ [message] } }

/-- Model of `ChatBot::updateChatLogicWithSelf` (lines 117-119) on the session slot of node
`this`. -/
def updateChatLogicWithSelf (h : Heap) (this : Nat) : Outcome :=
  match h.nodes[this]? with
  | none => .undefined
  | some holder => SetChatbotHandle h holder._chatBot._chatLogic this

/-- The value `dis(generator)` of a `std::uniform_int_distribution<int> dis(a, b)` with
`a ≤ b`: some value of `a .. b`, here the one picked by the generator output `rnd`; every
value of the range is reached as `rnd` varies. -/
def uniform_int_distribution (a b : Int) (rnd : Nat) : Int :=
  a + ((rnd : Int) % (b - a + 1))

/-- Model of `ChatBot::SetCurrentNode` (lines 158-171) on the session slot of node `this`; `rnd` is
the output of the generator seeded at line 165.  Constructing the distribution with an
upper bound below the lower one violates its precondition. -/
def SetCurrentNode (h : Heap) (this : Nat) (node : Option Nat) (rnd : Nat) : Outcome :=
  match h.nodes[this]? with
  | none => .undefined
  | some holder =>
    let h1 := h.setChatBot this { holder._chatBot with _currentNode := node }
    match node.bind (fun k => h1.nodes[k]?) with
    | none => .undefined
    | some cur =>
      let answers := cur._answers
      let hi := toInt (sizeSub answers.length 1)
      if hi < 0 then .undefined
      else
        match answers[toSize (uniform_int_distribution 0 hi rnd)]? with
        | none => .thrown h1
        | some answer => SendMessageToUser h1 holder._chatBot._chatLogic answer

/-- Model of `GraphNode::MoveChatbotHere` (lines 40-45) on node `this`, with the by-value
parameter `chatBot`. -/
def MoveChatbotHere (h : Heap) (this : Nat) (chatBot : ChatBot) (rnd : Nat) : Outcome :=
  match h.nodes[this]? with
  | none => .undefined
  | some n =>
    let h1 := h.setChatBot this (ChatBot.moveAssign n._chatBot chatBot false).1
    (updateChatLogicWithSelf h1 this).andThen fun h2 =>
      SetCurrentNode h2 this (some this) rnd

/-- Model of `GraphNode::MoveChatbotToNewNode` (lines 47-50) on node `this`: the parameter of
`MoveChatbotHere` is move-constructed from the `_chatBot` member, then the call is made
on `newNode`. -/
def MoveChatbotToNewNode (h : Heap) (this : Nat) (newNode : Option Nat) (rnd : Nat) : Outcome :=
  match h.nodes[this]? with
  | none => .undefined
  | some n =>
    let moved := ChatBot.moveConstruct n._chatBot
    let h1 := h.setChatBot this moved.2
    match newNode with
    | none => .undefined
    | some t => MoveChatbotHere h1 t moved.1 rnd

/-- The inner loop of lines 133-137 over the keywords of the edge at position `edge`. -/
def keywordLoop (edge : Nat) (message : CxxString) :
    List CxxString → List EdgeDist → List EdgeDist
  | [], levDists => levDists
  | keyword :: rest, levDists =>
    keywordLoop edge message rest (levDists ++ [(edge, ComputeLevenshteinDistance keyword message)])

/-- Modelled from the spec: `GraphNode::GetNumberOfChildEdges`, a getter declared outside the
two source files: the number of outgoing edges of the node (§3), that is the size of
`_childEdges`. -/
def GetNumberOfChildEdges (n : GraphNode) : Nat := n._childEdges.length

/-- Model of `GraphNode::GetChildEdgeAtIndex(int index)` (graphnode.cpp lines 54-62): the
address of `_childEdges[index]`, here the position of the edge in the vector.
`operator[]` takes the `int` as a `size_t`; past the end of the vector its behaviour is
undefined (`none`). -/
def GetChildEdgeAtIndex (n : GraphNode) (index : Int) : Option Nat :=
  if toSize index < n._childEdges.length then some (toSize index) else none

/-- The loop of lines 130-138 over the child edges of the current node: `i` is the
`size_t` counter and `remaining` the number of iterations still to run,
`GetNumberOfChildEdges() - i`.  Line 132 passes the counter to the `int` parameter of
`GetChildEdgeAtIndex`.  The result is `none` when the behaviour is undefined. -/
def edgeLoop (message : CxxString) (cur : GraphNode) :
    Nat → Nat → List EdgeDist → Option (List EdgeDist)
  | 0, _, levDists => some levDists
  | remaining + 1, i, levDists =>
    match GetChildEdgeAtIndex cur (toInt i) with
    | none => none
    | some p =>
      match cur._childEdges[p]? with
      | none => none
      | some edge =>
        edgeLoop message cur remaining (i + 1) (keywordLoop p message edge._keywords levDists)

/-- The enumeration of §4.2 of the specification: every outgoing edge in child edge order
and, for every edge, every one of its keywords in keyword order, each with the distance
between the keyword and the message; `i` is the position of the first edge of the list. -/
def candidates (message : CxxString) : List GraphEdge → Nat → List EdgeDist
  | [], _ => []
  | edge :: rest, i =>
    edge._keywords.map (fun keyword => (i, ComputeLevenshteinDistance keyword message))
      ++ candidates message rest (i + 1)

/-- Relation `FirstLeast l x`: among the pairs of `l` that attain the least distance, `x` is the one
encountered first. -/
def FirstLeast (l : List EdgeDist) (x : EdgeDist) : Prop :=
  ∃ before after, l = before ++ x :: after ∧ (∀ p ∈ before, x.2 < p.2) ∧
    (∀ p ∈ after, x.2 ≤ p.2)

/-- Lines 126-152 of `ReceiveMessageFromUser`: the value of `newNode`, or `none` when
reading it is undefined (an edge index past the end of `_childEdges`, or
`levDists.at(0).first` not an edge of the node). -/
def selectNewNode (sort : List EdgeDist → List EdgeDist) (cur : GraphNode)
    (rootNode : Option Nat) (message : CxxString) : Option (Option Nat) :=
  match edgeLoop message cur (GetNumberOfChildEdges cur) 0 [] with
  | none => none
  | some levDists =>
    if 0 < levDists.length then
      match (sort levDists)[0]? with
      | none => none
      | some ed =>
        match cur._childEdges[ed.1]? with
        | none => none
        | some edge => some edge._childNode
    else some rootNode

/-- Model of `ChatBot::ReceiveMessageFromUser` (lines 124-156) on a `ChatBot` with the members
`self`; `sort` is the `std::sort` of line 145 and `rnd` the generator output used by
`SetCurrentNode`. -/
def ReceiveMessageFromUser (sort : List EdgeDist → List EdgeDist) (h : Heap) (self : ChatBot)
    (message : CxxString) (rnd : Nat) : Outcome :=
  match self._currentNode with
  | none => .undefined
  | some c =>
    match h.nodes[c]? with
    | none => .undefined
    | some cur =>
      match selectNewNode sort cur self._rootNode message with
      | none => .undefined
      | some newNode => MoveChatbotToNewNode h c newNode rnd

/-- Modelled from the spec: the per-turn entry point of the excluded caller, which
delivers the user text to the session through the chat logic's chatbot handle
(`receive_message` of §6). -/
def SendMessageToChatbot (sort : List EdgeDist → List EdgeDist) (h : Heap) (logic : Nat)
    (message : CxxString) (rnd : Nat) : Outcome :=
  match h.logics[logic]? with
  | none => .undefined
  | some cl =>
    match cl._chatBot with
    | none => .undefined
    | some slot =>
      match h.nodes[slot]? with
      | none => .undefined
      | some holder => ReceiveMessageFromUser sort h holder._chatBot message rnd

/-- A conversation: the messages are delivered one after the other, each with its own
generator output, as long as the calls return. -/
def runMessages (sort : List EdgeDist → List EdgeDist) (logic : Nat) :
    Heap → List (CxxString × Nat) → Outcome
  | h, [] => .ok h
  | h, (message, rnd) :: rest =>
    (SendMessageToChatbot sort h logic message rnd).andThen fun h1 =>
      runMessages sort logic h1 rest

/-- A node holds the session when the chat-logic and root handles of its slot are set. -/
def holdsSession (n : GraphNode) : Prop :=
  n._chatBot._chatLogic ≠ none ∧ n._chatBot._rootNode ≠ none

instance (n : GraphNode) : Decidable (holdsSession n) := by
  unfold holdsSession; infer_instance

/-- A slot without session: every handle of the `ChatBot` is null. -/
def emptySlot (n : GraphNode) : Prop :=
  n._chatBot = { _image := none, _currentNode := none, _rootNode := none, _chatLogic := none }

instance (n : GraphNode) : Decidable (emptySlot n) := by
  unfold emptySlot; infer_instance

/-- The session is attached to node `k` and served by the chat logic `l`: the slot of `k`
holds a `ChatBot` whose current node is `k`, whose chat logic is `l` and whose root handle
is set, the chatbot handle of `l` points to that slot, and no other node holds a
session. -/
def SessionAt (h : Heap) (l k : Nat) : Prop :=
  (∃ nk, h.nodes[k]? = some nk ∧ nk._chatBot._currentNode = some k ∧
    nk._chatBot._chatLogic = some l ∧ nk._chatBot._rootNode ≠ none) ∧
  (∃ cl, h.logics[l]? = some cl ∧ cl._chatBot = some k) ∧
  ∀ j n, h.nodes[j]? = some n → j ≠ k → ¬ holdsSession n

/-- The graph is fit for a conversation: every edge leads to a node of the graph, every
node has between 1 and `2^31` answers, and every node has at most `2^31` outgoing
edges. -/
def GraphOk (h : Heap) : Prop :=
  (∀ n ∈ h.nodes, ∀ e ∈ n._childEdges, ∃ t, e._childNode = some t ∧ t < h.nodes.length) ∧
  (∀ n ∈ h.nodes, 1 ≤ n._answers.length ∧ n._answers.length ≤ 2 ^ 31) ∧
  (∀ n ∈ h.nodes, n._childEdges.length ≤ 2 ^ 31)

/-- The root handle of the session attached to node `k` names a node of the graph. -/
def RootOk (h : Heap) (k : Nat) : Prop :=
  ∃ nk r, h.nodes[k]? = some nk ∧ nk._chatBot._rootNode = some r ∧ r < h.nodes.length

/-- What the conversation needs of `std::sort`: the front of the sorted vector is one of
the elements of the vector (the vector is permuted, not altered). -/
def SortKeeps (sort : List EdgeDist → List EdgeDist) : Prop :=
  ∀ v, v ≠ [] → ∃ x ∈ v, (sort v)[0]? = some x

/-! ## Example heaps -/

/-- A `ChatBot` attached to node `k`, with root node 0 and chat logic 0. -/
def sessionAtNode (k : Nat) : ChatBot :=
  { _image := some 0, _currentNode := some k, _rootNode := some 0, _chatLogic := some 0 }

/-- The graph of §8: the root has the edges E1 (keyword "hi", to node 1) and E2 (keyword
"bye", to node 2); the session sits in the root. -/
def exampleHeap : Heap :=
  { nodes := [
      { _childEdges := [ { _keywords := ["hi".toList], _childNode := some 1 },
                         { _keywords := ["bye".toList], _childNode := some 2 } ],
        _chatBot := sessionAtNode 0, _id := 0, _answers := ["Welcome".toList] },
      { _childEdges := [], _chatBot := ChatBot.new none, _id := 1,
        _answers := ["Hello".toList, "Hi there".toList] },
      { _childEdges := [], _chatBot := ChatBot.new none, _id := 2,
        _answers := ["Goodbye".toList] } ],
    logics := [ { _chatBot := some 0, sent := [] } ] }

/-- The heap `exampleHeap` after the message "hai" (generator output 5): the session sits
in node 1 and the second answer of node 1 has been sent. -/
def exampleHeapAfterHai : Heap :=
  { nodes := [
      { _childEdges := [ { _keywords := ["hi".toList], _childNode := some 1 },
                         { _keywords := ["bye".toList], _childNode := some 2 } ],
        _chatBot := ⟨none, none, none, none⟩, _id := 0, _answers := ["Welcome".toList] },
      { _childEdges := [], _chatBot := sessionAtNode 1, _id := 1,
        _answers := ["Hello".toList, "Hi there".toList] },
      { _childEdges := [], _chatBot := ChatBot.new none, _id := 2,
        _answers := ["Goodbye".toList] } ],
    logics := [ { _chatBot := some 1, sent := ["Hi there".toList] } ] }

/-- A node whose answer list has `2^31 + 1` entries, holding the session. -/
def bigNode : GraphNode :=
  { _childEdges := [], _chatBot := sessionAtNode 0, _id := 0,
    _answers := List.replicate (2 ^ 31 + 1) "a".toList }

/-- The heap made of `bigNode` alone. -/
def bigHeap : Heap :=
  { nodes := [bigNode], logics := [ { _chatBot := some 0, sent := [] } ] }

/-- The root, holding the session, with one edge to a node without answers. -/
def emptyAnswerHeap : Heap :=
  { nodes := [
      { _childEdges := [ { _keywords := ["go".toList], _childNode := some 1 } ],
        _chatBot := sessionAtNode 0, _id := 0, _answers := ["Welcome".toList] },
      { _childEdges := [], _chatBot := ChatBot.new none, _id := 1, _answers := [] } ],
    logics := [ { _chatBot := some 0, sent := [] } ] }

/-- A root with 17 outgoing edges, the edge at position `i` leading to node `i + 1`, all
with the single keyword "a"; the session sits in the root. -/
def tieNode : GraphNode :=
  { _childEdges := (List.range 17).map
      (fun i => { _keywords := ["a".toList], _childNode := some (i + 1) }),
    _chatBot := sessionAtNode 0, _id := 0, _answers := ["Welcome".toList] }

/-- The heap of `tieNode` and its 17 target nodes. -/
def tieHeap : Heap :=
  { nodes := tieNode :: (List.range 17).map
      (fun i => { _childEdges := [], _chatBot := ChatBot.new none, _id := (i : Int) + 1,
                  _answers := ["Here".toList] }),
    logics := [ { _chatBot := some 0, sent := [] } ] }

/-- A keyword of `2^31` characters. -/
def longKeyword : CxxString := List.replicate (2 ^ 31) 'a'

/-- A root with two edges, the first with the keyword "a" and leading to node 1, the
second with the keyword `longKeyword` and leading to node 2; the session sits in the
root. -/
def wrapNode : GraphNode :=
  { _childEdges := [ { _keywords := ["a".toList], _childNode := some 1 },
                     { _keywords := [longKeyword], _childNode := some 2 } ],
    _chatBot := sessionAtNode 0, _id := 0, _answers := ["Welcome".toList] }

/-- The heap of `wrapNode` and its two target nodes. -/
def wrapHeap : Heap :=
  { nodes := [ wrapNode,
      { _childEdges := [], _chatBot := ChatBot.new none, _id := 1, _answers := ["One".toList] },
      { _childEdges := [], _chatBot := ChatBot.new none, _id := 2, _answers := ["Two".toList] } ],
    logics := [ { _chatBot := some 0, sent := [] } ] }

/-- A root with `2^31 + 1` outgoing edges, none of which has a keyword; the session sits
in the root. -/
def manyEdgesNode : GraphNode :=
  { _childEdges := List.replicate (2 ^ 31 + 1) { _keywords := [], _childNode := some 0 },
    _chatBot := sessionAtNode 0, _id := 0, _answers := ["Welcome".toList] }

/-- The heap made of `manyEdgesNode` alone. -/
def manyEdgesHeap : Heap :=
  { nodes := [manyEdgesNode], logics := [ { _chatBot := some 0, sent := [] } ] }

/-- A sorting routine that keeps the order of the pairs of equal distance. -/
def sortKeepingOrder (v : List EdgeDist) : List EdgeDist :=
  List.insertionSort (fun a b => a.2 ≤ b.2) v

/-- A sorting routine that reverses the order of the pairs of equal distance. -/
def sortReversingOrder (v : List EdgeDist) : List EdgeDist :=
  List.insertionSort (fun a b => a.2 ≤ b.2) v.reverse

/-! # Theorems -/

/-! ## The recurrence and the edit sequences -/

theorem lev_nil_left (ys : List Char) : lev [] ys = ys.length := by
  rw [lev]

theorem lev_nil_right (xs : List Char) : lev xs [] = xs.length := by
  cases xs <;> simp [lev]

theorem lev_cons_cons (x y : Char) (xs ys : List Char) :
    lev (x :: xs) (y :: ys) =
      if x = y then lev xs ys
      else min (lev (x :: xs) ys) (min (lev xs (y :: ys)) (lev xs ys)) + 1 := by
  rw [lev]

theorem lev_comm (a b : List Char) : lev a b = lev b a := by
  induction a, b using lev.induct with
  | case1 ys => rw [lev_nil_left, lev_nil_right]
  | case2 x xs => rw [lev_nil_left, lev_nil_right]
  | case3 xs y ys ih =>
    rw [lev_cons_cons, lev_cons_cons, if_pos rfl, if_pos rfl, ih]
  | case4 x xs y ys h ih1 ih2 ih3 =>
    rw [lev_cons_cons, lev_cons_cons, if_neg h, if_neg (Ne.symm h), ih1, ih2, ih3]
    congr 1
    rw [← min_assoc, min_comm (lev ys (x :: xs)), min_assoc]


theorem lev_cons_same (x : Char) (xs ys : List Char) : lev (x :: xs) (x :: ys) = lev xs ys := by
  rw [lev_cons_cons, if_pos rfl]

/-- Removing or adding a leading character of the first string moves the value by at most 1. -/
theorem lev_cons_bounds (n : Nat) : ∀ (r c : List Char), r.length + c.length = n →
    ∀ x : Char, lev (x :: r) c ≤ lev r c + 1 ∧ lev r c ≤ lev (x :: r) c + 1 := by
  induction n using Nat.strong_induction_on with
  | _ n ih =>
    intro r c hn x
    cases c with
    | nil => simp only [lev_nil_right, List.length_cons]; omega
    | cons g c1 =>
      have h1 := ih (r.length + c1.length) (by simp at hn; omega) r c1 rfl
      -- second-argument versions through commutativity
      have h2 : lev r c1 ≤ lev r (g :: c1) + 1 := by
        rw [lev_comm r c1, lev_comm r (g :: c1)]
        exact (ih (c1.length + r.length) (by simp at hn; omega) c1 r rfl g).2
      have h3 : lev r (g :: c1) ≤ lev r c1 + 1 := by
        rw [lev_comm r c1, lev_comm r (g :: c1)]
        exact (ih (c1.length + r.length) (by simp at hn; omega) c1 r rfl g).1
      have h4 := (h1 x).2
      rw [lev_cons_cons]
      by_cases hx : x = g
      · rw [if_pos hx]
        exact ⟨h2, h3⟩
      · rw [if_neg hx]
        constructor
        · have := min_le_left (lev r (g :: c1)) (lev r c1)
          have := min_le_right (lev (x :: r) c1) (min (lev r (g :: c1)) (lev r c1))
          omega
        · rcases min_choice (lev (x :: r) c1) (min (lev r (g :: c1)) (lev r c1)) with h | h
          · rw [h]; omega
          · rw [h]
            rcases min_choice (lev r (g :: c1)) (lev r c1) with h5 | h5
            · rw [h5]; omega
            · rw [h5]; omega

theorem lev_cons_le (x : Char) (r c : List Char) : lev (x :: r) c ≤ lev r c + 1 :=
  (lev_cons_bounds _ r c rfl x).1

theorem lev_le_cons (x : Char) (r c : List Char) : lev r c ≤ lev (x :: r) c + 1 :=
  (lev_cons_bounds _ r c rfl x).2

theorem lev_cons_right_le (y : Char) (r c : List Char) : lev r (y :: c) ≤ lev r c + 1 := by
  rw [lev_comm r, lev_comm r]; exact lev_cons_le y c r

theorem lev_le_cons_right (y : Char) (r c : List Char) : lev r c ≤ lev r (y :: c) + 1 := by
  rw [lev_comm r, lev_comm r]; exact lev_le_cons y c r

/-- The diagonal bound: dropping both heads costs at most one edit. -/
theorem lev_cons_cons_le (x y : Char) (r c : List Char) :
    lev (x :: r) (y :: c) ≤ lev r c + 1 := by
  rw [lev_cons_cons]
  split
  · omega
  · have := min_le_right (lev r (y :: c)) (lev r c)
    have := min_le_right (lev (x :: r) c) (min (lev r (y :: c)) (lev r c))
    omega

/-- The recurrence with the minimum taken in every case. -/
theorem lev_cons_cons_min (x y : Char) (r c : List Char) :
    lev (x :: r) (y :: c) =
      min (lev (x :: r) c + 1) (min (lev r (y :: c) + 1) (lev r c + if x = y then 0 else 1)) := by
  rw [lev_cons_cons]
  by_cases h : x = y
  · subst h
    simp only [if_true, Nat.add_zero]
    have h1 := lev_le_cons x r c
    have h2 := lev_le_cons_right x r c
    omega
  · simp only [if_neg h]
    omega

theorem lev_subst_le (x y : Char) (r : List Char) :
    ∀ c : List Char, lev (x :: r) c ≤ lev (y :: r) c + 1 := by
  intro c
  induction c with
  | nil => simp [lev_nil_right]
  | cons g c1 ih =>
    have h1 := lev_cons_cons_le x g r c1
    have h2 := lev_cons_le x r (g :: c1)
    have h3 := lev_cons_right_le g (x :: r) c1
    rw [lev_cons_cons_min y g r c1]
    split <;> omega

theorem lev_cons_congr (h : Char) (a b : List Char)
    (hab : ∀ c, lev a c ≤ lev b c + 1) : ∀ c, lev (h :: a) c ≤ lev (h :: b) c + 1 := by
  intro c
  induction c with
  | nil =>
    have := hab []
    simp [lev_nil_right] at this ⊢
    omega
  | cons g c1 ih =>
    have h1 := hab c1
    have h2 := hab (g :: c1)
    rw [lev_cons_cons_min h g a c1, lev_cons_cons_min h g b c1]
    split <;> omega

theorem lev_self (a : List Char) : lev a a = 0 := by
  induction a with
  | nil => simp [lev_nil_left]
  | cons x xs ih => rw [lev_cons_same, ih]

theorem lev_append_congr (l a b : List Char)
    (hab : ∀ c, lev a c ≤ lev b c + 1) : ∀ c, lev (l ++ a) c ≤ lev (l ++ b) c + 1 := by
  induction l with
  | nil => simpa using hab
  | cons h l ih => exact lev_cons_congr h _ _ ih

theorem lev_step {a b : List Char} (h : EditStep a b) (c : List Char) :
    lev a c ≤ lev b c + 1 := by
  cases h with
  | insertion l r x => exact lev_append_congr l _ _ (fun c => lev_le_cons x r c) c
  | deletion l r x => exact lev_append_congr l _ _ (fun c => lev_cons_le x r c) c
  | substitution l r x y _ => exact lev_append_congr l _ _ (lev_subst_le x y r) c

theorem lev_le_of_editsIn {n : Nat} {a b : List Char} (h : EditsIn n a b) : lev a b ≤ n := by
  induction h with
  | done a => simp [lev_self]
  | @next n a b c hs _ ih => have := lev_step hs c; omega

theorem editStep_cons (x : Char) {a b : List Char} (h : EditStep a b) :
    EditStep (x :: a) (x :: b) := by
  cases h with
  | insertion l r c => exact EditStep.insertion (x :: l) r c
  | deletion l r c => exact EditStep.deletion (x :: l) r c
  | substitution l r c d hcd => exact EditStep.substitution (x :: l) r c d hcd

theorem editsIn_cons (x : Char) {n : Nat} {a b : List Char} (h : EditsIn n a b) :
    EditsIn n (x :: a) (x :: b) := by
  induction h with
  | done a => exact EditsIn.done _
  | next hs _ ih => exact EditsIn.next (editStep_cons x hs) ih

theorem editsIn_lev (a b : List Char) : EditsIn (lev a b) a b := by
  induction a, b using lev.induct with
  | case1 ys =>
    rw [lev_nil_left]
    induction ys with
    | nil => exact EditsIn.done _
    | cons y ys ih => exact EditsIn.next (EditStep.insertion [] [] y) (editsIn_cons y ih)
  | case2 x xs =>
    rw [lev_nil_right]
    induction xs generalizing x with
    | nil => exact EditsIn.next (EditStep.deletion [] [] x) (EditsIn.done _)
    | cons z zs ih => exact EditsIn.next (EditStep.deletion [] (z :: zs) x) (ih z)
  | case3 xs y ys ih =>
    rw [lev_cons_same]; exact editsIn_cons y ih
  | case4 x xs y ys h ih1 ih2 ih3 =>
    rw [lev_cons_cons, if_neg h]
    rcases min_choice (lev (x :: xs) ys) (min (lev xs (y :: ys)) (lev xs ys)) with h1 | h1
    · rw [h1]
      exact EditsIn.next (EditStep.insertion [] (x :: xs) y) (editsIn_cons y ih1)
    · rw [h1]
      rcases min_choice (lev xs (y :: ys)) (lev xs ys) with h2 | h2
      · rw [h2]
        exact EditsIn.next (EditStep.deletion [] xs x) ih2
      · rw [h2]
        exact EditsIn.next (EditStep.substitution [] xs x y h) (editsIn_cons y ih3)

theorem lev_isLeast (a b : List Char) : IsLeast {n | EditsIn n a b} (lev a b) :=
  ⟨editsIn_lev a b, fun _ hn => lev_le_of_editsIn hn⟩

theorem editStep_reverse {a b : List Char} (h : EditStep a b) :
    EditStep a.reverse b.reverse := by
  cases h with
  | insertion l r c =>
    simpa using EditStep.insertion r.reverse l.reverse c
  | deletion l r c =>
    simpa using EditStep.deletion r.reverse l.reverse c
  | substitution l r c d hcd =>
    simpa using EditStep.substitution r.reverse l.reverse c d hcd

theorem editsIn_reverse {n : Nat} {a b : List Char} (h : EditsIn n a b) :
    EditsIn n a.reverse b.reverse := by
  induction h with
  | done a => exact EditsIn.done _
  | next hs _ ih => exact EditsIn.next (editStep_reverse hs) ih

theorem lev_reverse (a b : List Char) : lev a.reverse b.reverse = lev a b := by
  apply le_antisymm
  · exact lev_le_of_editsIn (editsIn_reverse (editsIn_lev a b))
  · have := lev_le_of_editsIn (editsIn_reverse (editsIn_lev a.reverse b.reverse))
    simpa using this

theorem lev_le_max (a b : List Char) : lev a b ≤ max a.length b.length := by
  induction a, b using lev.induct with
  | case1 ys => simp [lev_nil_left]
  | case2 x xs => simp [lev_nil_right]
  | case3 xs y ys ih =>
    rw [lev_cons_same]; simp only [List.length_cons]; omega
  | case4 x xs y ys h ih1 ih2 ih3 =>
    have := lev_cons_cons_le x y xs ys
    simp only [List.length_cons]; omega

theorem getD_set_nat (l : List Nat) (i j a : Nat) :
    (l.set i a).getD j 0 = if i = j ∧ i < l.length then a else l.getD j 0 := by
  simp only [List.getD_eq_getElem?_getD, List.getElem?_set]
  by_cases h : i = j
  · subst h
    by_cases h2 : i < l.length
    · simp [h2]
    · have h3 : l[i]? = none := List.getElem?_eq_none (by omega)
      simp [h2, h3]
  · simp [h]

theorem sizeAdd_eq (a b : Nat) (h : a + b < 2 ^ 64) : sizeAdd a b = a + b := by
  unfold sizeAdd SIZE_MOD
  exact Nat.mod_eq_of_lt h

theorem innerLoop_spec (c1 : Char) (p s2 : List Char) (hp : p.length < 2 ^ 63)
    (hs2 : s2.length < 2 ^ 63) :
    ∀ (rest q : List Char) (corner : Nat) (costs : List Nat),
      s2 = q ++ rest →
      costs.length = s2.length + 1 →
      corner = lev p.reverse q.reverse →
      (∀ k, k ≤ q.length → costs.getD k 0 = lev (c1 :: p.reverse) (s2.take k).reverse) →
      (∀ k, q.length < k → k ≤ s2.length → costs.getD k 0 = lev p.reverse (s2.take k).reverse) →
      (innerLoop c1 rest q.length corner costs).length = s2.length + 1 ∧
      ∀ k, k ≤ s2.length →
        (innerLoop c1 rest q.length corner costs).getD k 0
          = lev (c1 :: p.reverse) (s2.take k).reverse := by
  intro rest
  induction rest with
  | nil =>
    intro q corner costs hq hlen _ hlow _
    subst hq
    simp only [innerLoop]
    refine ⟨hlen, fun k hk => hlow k (by simpa using hk)⟩
  | cons c2 rest ih =>
    intro q corner costs hq hlen hcorner hlow hhigh
    have hqlen : q.length + 1 ≤ s2.length := by
      rw [hq]; simp
    have htake : s2.take (q.length + 1) = q ++ [c2] := by
      rw [hq]; simp [List.take_append_eq_append_take]
    have htakeq : s2.take q.length = q := by
      rw [hq]; simp
    have hupper : costs.getD (q.length + 1) 0 = lev p.reverse (c2 :: q.reverse) := by
      rw [hhigh (q.length + 1) (by omega) hqlen, htake]; simp
    have hleft : costs.getD q.length 0 = lev (c1 :: p.reverse) q.reverse := by
      rw [hlow q.length le_rfl, htakeq]
    have hj : sizeAdd q.length 1 = (q ++ [c2]).length := by
      rw [sizeAdd_eq _ _ (by omega)]; simp
    have hbound : lev p.reverse q.reverse < 2 ^ 63 := by
      have := lev_le_max p.reverse q.reverse
      simp only [List.length_reverse] at this
      omega
    simp only [innerLoop]
    rw [hj]
    refine ih (q ++ [c2]) _ _ (by rw [hq]; simp) ?_ ?_ ?_ ?_
    · split <;> simp [hlen]
    · rw [hupper]; simp
    · intro k hk
      by_cases hk2 : k = q.length + 1
      · subst hk2
        rw [htake]
        simp only [List.reverse_append, List.reverse_cons, List.reverse_nil, List.nil_append,
          List.singleton_append]
        rw [lev_cons_cons]
        by_cases hc : c1 = c2
        · simp only [if_pos hc]
          rw [getD_set_nat, if_pos ⟨rfl, by omega⟩, hcorner]
        · simp only [if_neg hc]
          rw [getD_set_nat, if_pos ⟨rfl, by omega⟩, hupper, hleft, hcorner]
          rw [sizeAdd_eq]
          · congr 1
            simp only [Nat.min_def]
            split_ifs <;> omega
          · have : (if lev (c1 :: p.reverse) q.reverse <
                (if lev p.reverse (c2 :: q.reverse) < lev p.reverse q.reverse
                  then lev p.reverse (c2 :: q.reverse) else lev p.reverse q.reverse)
                then lev (c1 :: p.reverse) q.reverse
                else (if lev p.reverse (c2 :: q.reverse) < lev p.reverse q.reverse
                  then lev p.reverse (c2 :: q.reverse) else lev p.reverse q.reverse))
                ≤ lev p.reverse q.reverse := by
              split_ifs <;> omega
            omega
      · have hk3 : k ≤ q.length := by simp at hk; omega
        have : (if c1 = c2 then costs.set (q.length + 1) corner
            else costs.set (q.length + 1) (sizeAdd
              (if costs.getD q.length 0 <
                  (if costs.getD (q.length + 1) 0 < corner then costs.getD (q.length + 1) 0
                    else corner)
                then costs.getD q.length 0
                else (if costs.getD (q.length + 1) 0 < corner then costs.getD (q.length + 1) 0
                    else corner)) 1)).getD k 0 = costs.getD k 0 := by
          split <;> rw [getD_set_nat, if_neg (by omega)]
        rw [this]
        exact hlow k hk3
    · intro k hk hk2
      have hk3 : q.length + 1 < k := by simpa using hk
      have : (if c1 = c2 then costs.set (q.length + 1) corner
          else costs.set (q.length + 1) (sizeAdd
            (if costs.getD q.length 0 <
                (if costs.getD (q.length + 1) 0 < corner then costs.getD (q.length + 1) 0
                  else corner)
              then costs.getD q.length 0
              else (if costs.getD (q.length + 1) 0 < corner then costs.getD (q.length + 1) 0
                  else corner)) 1)).getD k 0 = costs.getD k 0 := by
        split <;> rw [getD_set_nat, if_neg (by omega)]
      rw [this]
      exact hhigh k (by omega) hk2

theorem outerLoop_spec (s1 s2 : List Char) (hs1 : s1.length < 2 ^ 63)
    (hs2 : s2.length < 2 ^ 63) :
    ∀ (rest p : List Char) (costs : List Nat),
      s1 = p ++ rest →
      costs.length = s2.length + 1 →
      (∀ k, k ≤ s2.length → costs.getD k 0 = lev p.reverse (s2.take k).reverse) →
      ∀ k, k ≤ s2.length →
        (outerLoop s2 rest p.length costs).getD k 0 = lev s1.reverse (s2.take k).reverse := by
  intro rest
  induction rest with
  | nil =>
    intro p costs hp _ hrow k hk
    simp only [List.append_nil] at hp
    subst hp
    simp only [outerLoop]
    exact hrow k hk
  | cons c1 rest ih =>
    intro p costs hp hlen hrow k hk
    have hplen : p.length + 1 ≤ s1.length := by rw [hp]; simp
    have hi : sizeAdd p.length 1 = (p ++ [c1]).length := by
      rw [sizeAdd_eq _ _ (by omega)]; simp
    simp only [outerLoop]
    rw [hi]
    have hinner := innerLoop_spec c1 p s2 (by omega) hs2 s2 [] p.length
      (costs.set 0 (p.length + 1)) (by simp) (by simp [hlen]) (by simp [lev_nil_right])
      (by
        intro k hk
        have hk0 : k = 0 := by simpa using hk
        subst hk0
        rw [getD_set_nat, if_pos ⟨rfl, by omega⟩]
        simp [lev_nil_right])
      (by
        intro k hk hk2
        have hk0 : 0 < k := by simpa using hk
        rw [getD_set_nat, if_neg (by omega)]
        exact hrow k hk2)
    have hi2 : (p ++ [c1]).length = p.length + 1 := by simp
    rw [hi2] at hi ⊢
    simp only [List.length_nil] at hinner
    have := ih (p ++ [c1]) (innerLoop c1 s2 0 p.length (costs.set 0 (p.length + 1)))
      (by rw [hp]; simp) hinner.1
      (by
        intro k hk
        rw [hinner.2 k hk]
        simp) k hk
    rw [hi2] at this
    exact this

/-- Below the size limit of `std::string` the cost computed by the rolling row is the
value of the recurrence on the upper-cased strings. -/
theorem levenshteinCost_eq_lev (s1 s2 : List Char) (hs1 : s1.length < 2 ^ 63)
    (hs2 : s2.length < 2 ^ 63) :
    levenshteinCost s1 s2 = lev (s1.map toupper) (s2.map toupper) := by
  unfold levenshteinCost
  simp only [List.length_map]
  by_cases hm : s1.length = 0
  · have : s1 = [] := List.length_eq_zero.mp hm
    subst this
    simp [lev_nil_left]
  · rw [if_neg hm]
    by_cases hn : s2.length = 0
    · have : s2 = [] := List.length_eq_zero.mp hn
      subst this
      simp [lev_nil_right]
    · rw [if_neg hn]
      have := outerLoop_spec (s1.map toupper) (s2.map toupper) (by simpa using hs1)
        (by simpa using hs2) (s1.map toupper) [] (List.range (s2.length + 1)) (by simp)
        (by simp)
        (by
          intro k hk
          simp only [List.length_map] at hk
          simp only [List.reverse_nil, lev_nil_left, List.length_reverse, List.length_take,
            List.length_map]
          rw [List.getD_eq_getElem?_getD, List.getElem?_range (by omega)]
          simp [hk])
        s2.length (by simp)
      simp only [List.length_nil, List.length_map] at this
      rw [this]
      have ht : List.take s2.length (List.map toupper s2) = List.map toupper s2 :=
        List.take_of_length_le (by simp)
      rw [ht, lev_reverse]

/-! ## `ComputeLevenshteinDistance` -/

theorem toInt_of_lt (x : Nat) (h : x < 2 ^ 31) : toInt x = (x : Int) := by
  unfold toInt
  have h1 : x % 2 ^ 32 = x := Nat.mod_eq_of_lt (by omega)
  rw [h1, if_pos h]

theorem levenshteinCost_comm (a b : List Char) (ha : a.length < 2 ^ 63)
    (hb : b.length < 2 ^ 63) : levenshteinCost a b = levenshteinCost b a := by
  rw [levenshteinCost_eq_lev a b ha hb, levenshteinCost_eq_lev b a hb ha, lev_comm]

theorem levenshteinCost_le_max (a b : List Char) (ha : a.length < 2 ^ 63)
    (hb : b.length < 2 ^ 63) : levenshteinCost a b ≤ max a.length b.length := by
  rw [levenshteinCost_eq_lev a b ha hb]
  simpa using lev_le_max (a.map toupper) (b.map toupper)

/-- C1: for strings shorter than `2^31`, `ComputeLevenshteinDistance a b` is the least
number of single-character insertions, deletions and substitutions that turn the
upper-cased `a` into the upper-cased `b`; and it returns 3 for "kitten" and "sitting". -/
theorem ComputeLevenshteinDistance_least_edits :
    (∀ a b : List Char, a.length < 2 ^ 31 → b.length < 2 ^ 31 →
      ∃ d : Nat, ComputeLevenshteinDistance a b = (d : Int) ∧
        IsLeast {n | EditsIn n (a.map toupper) (b.map toupper)} d) ∧
    ComputeLevenshteinDistance "kitten".toList "sitting".toList = 3 := by
  refine ⟨fun a b ha hb => ?_, by decide⟩
  have ha1 : a.length < 2 ^ 63 := by omega
  have hb1 : b.length < 2 ^ 63 := by omega
  refine ⟨lev (a.map toupper) (b.map toupper), ?_, lev_isLeast _ _⟩
  unfold ComputeLevenshteinDistance
  have hle := levenshteinCost_le_max a b ha1 hb1
  rw [toInt_of_lt _ (by omega), levenshteinCost_eq_lev a b ha1 hb1]

/-- C1, at "kitten" and "sitting": the value returned is 3, and 3 is the least number of
edits between "KITTEN" and "SITTING". -/
theorem ComputeLevenshteinDistance_least_edits_witness :
    "kitten".toList.length < 2 ^ 31 ∧ "sitting".toList.length < 2 ^ 31 ∧
    IsLeast {n | EditsIn n ("kitten".toList.map toupper) ("sitting".toList.map toupper)} 3 := by
  refine ⟨by decide, by decide, ?_⟩
  obtain ⟨d, hd, hleast⟩ :=
    ComputeLevenshteinDistance_least_edits.1 "kitten".toList "sitting".toList
      (by decide) (by decide)
  have h3 : ComputeLevenshteinDistance "kitten".toList "sitting".toList = 3 :=
    ComputeLevenshteinDistance_least_edits.2
  have : d = 3 := by
    rw [h3] at hd
    exact_mod_cast hd.symm
  rw [this] at hleast
  exact hleast

/-- C10: `ComputeLevenshteinDistance` is symmetric in its two arguments, for all strings a
`std::string` can hold (lengths below `2^63`). -/
theorem ComputeLevenshteinDistance_symmetric (a b : List Char) (ha : a.length < 2 ^ 63)
    (hb : b.length < 2 ^ 63) :
    ComputeLevenshteinDistance a b = ComputeLevenshteinDistance b a := by
  unfold ComputeLevenshteinDistance
  rw [levenshteinCost_comm a b ha hb]

/-- C10, at "hai" and "bye". -/
theorem ComputeLevenshteinDistance_symmetric_witness :
    "hai".toList.length < 2 ^ 63 ∧ "bye".toList.length < 2 ^ 63 ∧
    ComputeLevenshteinDistance "hai".toList "bye".toList
      = ComputeLevenshteinDistance "bye".toList "hai".toList :=
  ⟨by decide, by decide,
    ComputeLevenshteinDistance_symmetric "hai".toList "bye".toList (by decide) (by decide)⟩

/-! ## Migration -/

/-- The slot content left behind by a move. -/
theorem moveConstruct_snd (b : ChatBot) :
    (ChatBot.moveConstruct b).2
      = { _image := none, _currentNode := none, _rootNode := none, _chatLogic := none } := rfl

theorem moveConstruct_fst (b : ChatBot) : (ChatBot.moveConstruct b).1 = b := by
  cases b; rfl

theorem moveAssign_fst (a b : ChatBot) : (ChatBot.moveAssign a b false).1 = b := by
  cases b; rfl

theorem setChatBot_nodes (h : Heap) (k : Nat) (cb : ChatBot) (n : GraphNode)
    (hn : h.nodes[k]? = some n) :
    (h.setChatBot k cb).nodes = h.nodes.set k { n with _chatBot := cb } := by
  unfold Heap.setChatBot
  rw [hn]

theorem setChatBot_logics (h : Heap) (k : Nat) (cb : ChatBot) :
    (h.setChatBot k cb).logics = h.logics := by
  unfold Heap.setChatBot
  split <;> rfl

theorem setChatBot_get (h : Heap) (k : Nat) (cb : ChatBot) (n : GraphNode)
    (hn : h.nodes[k]? = some n) :
    (h.setChatBot k cb).nodes[k]? = some { n with _chatBot := cb } := by
  rw [setChatBot_nodes h k cb n hn]
  have hk : k < h.nodes.length := by
    by_contra hc
    rw [List.getElem?_eq_none (by omega)] at hn
    exact absurd hn (by simp)
  simp [List.getElem?_set, hk]

/-- What a call of `SetCurrentNode` that returns has done. -/
theorem SetCurrentNode_ok {h : Heap} {this t rnd : Nat} {h' : Heap}
    (hok : SetCurrentNode h this (some t) rnd = .ok h') :
    ∃ holder cur l cl answer,
      h.nodes[this]? = some holder ∧
      (h.setChatBot this { holder._chatBot with _currentNode := some t }).nodes[t]? = some cur ∧
      holder._chatBot._chatLogic = some l ∧ h.logics[l]? = some cl ∧
      answer ∈ cur._answers ∧
      h'.nodes = (h.setChatBot this { holder._chatBot with _currentNode := some t }).nodes ∧
      h'.logics = h.logics.set l { cl with sent := cl.sent ++ [answer] } := by
  unfold SetCurrentNode at hok
  split at hok
  · exact absurd hok (by simp)
  · rename_i holder hholder
    simp only [Option.bind] at hok
    split at hok
    · exact absurd hok (by simp)
    · rename_i cur hcur
      split at hok
      · exact absurd hok (by simp)
      · split at hok
        · exact absurd hok (by simp)
        · rename_i answer hans
          unfold SendMessageToUser at hok
          split at hok
          · exact absurd hok (by simp)
          · rename_i l hl
            rw [setChatBot_logics] at hok
            split at hok
            · exact absurd hok (by simp)
            · rename_i cl hcl
              injection hok with hok
              subst hok
              refine ⟨holder, cur, l, cl, answer, hholder, hcur, hl, hcl, ?_, rfl, ?_⟩
              · exact List.getElem?_mem hans
              · simp [setChatBot_logics]

theorem getElem?_lt {α : Type} {l : List α} {k : Nat} {a : α} (h : l[k]? = some a) :
    k < l.length := by
  by_contra hc
  rw [List.getElem?_eq_none (by omega)] at h
  exact absurd h (by simp)

/-- What a call of `MoveChatbotHere` that returns has done: the slot of the node holds the
parameter with the current node set to the node, the chat logic points to the slot and
has received one answer of the node. -/
theorem MoveChatbotHere_ok {h : Heap} {t rnd : Nat} {bot : ChatBot} {h' : Heap}
    (hok : MoveChatbotHere h t bot rnd = .ok h') :
    ∃ nt l cl answer,
      h.nodes[t]? = some nt ∧ bot._chatLogic = some l ∧ h.logics[l]? = some cl ∧
      answer ∈ nt._answers ∧
      h'.nodes = h.nodes.set t { nt with _chatBot := { bot with _currentNode := some t } } ∧
      h'.logics = h.logics.set l { _chatBot := some t, sent := cl.sent ++ [answer] } := by
  rcases hnt : h.nodes[t]? with _ | nt
  · simp [MoveChatbotHere, hnt] at hok
  have hlt := getElem?_lt hnt
  rcases hl : bot._chatLogic with _ | l
  · simp [MoveChatbotHere, hnt, moveAssign_fst, updateChatLogicWithSelf,
      setChatBot_get h t bot nt hnt, SetChatbotHandle, hl, Outcome.andThen] at hok
  rcases hcl : h.logics[l]? with _ | cl
  · simp [MoveChatbotHere, hnt, moveAssign_fst, updateChatLogicWithSelf,
      setChatBot_get h t bot nt hnt, SetChatbotHandle, hl, setChatBot_logics, hcl,
      Outcome.andThen] at hok
  have hllt := getElem?_lt hcl
  simp only [MoveChatbotHere, hnt, moveAssign_fst, updateChatLogicWithSelf,
      setChatBot_get h t bot nt hnt, SetChatbotHandle, hl, setChatBot_logics, hcl,
      Outcome.andThen] at hok
  obtain ⟨holder, cur, l2, cl2, answer, h1, h2, h3, h4, h5, h6, h7⟩ := SetCurrentNode_ok hok
  simp only [setChatBot_nodes h t bot nt hnt, List.getElem?_set_eq_of_lt _ hlt,
    Option.some.injEq] at h1
  subst h1
  simp only [hl, Option.some.injEq] at h3
  subst h3
  simp only [List.getElem?_set_eq_of_lt _ hllt, Option.some.injEq] at h4
  subst h4
  have hnodes2 : (Heap.setChatBot ⟨(h.setChatBot t bot).nodes,
      h.logics.set l ⟨some t, cl.sent⟩⟩ t { bot with _currentNode := some t }).nodes
      = h.nodes.set t { nt with _chatBot := { bot with _currentNode := some t } } := by
    rw [setChatBot_nodes _ t _ { nt with _chatBot := bot }]
    · simp [setChatBot_nodes h t bot nt hnt]
    · simp [setChatBot_nodes h t bot nt hnt, List.getElem?_set_eq_of_lt _ hlt]
  simp only [hnodes2, List.getElem?_set_eq_of_lt _ hlt, Option.some.injEq] at h2 h6
  subst h2
  rw [hl] at h6
  refine ⟨nt, l, cl, answer, rfl, rfl, hcl, h5, h6, ?_⟩
  rw [h7]
  simp

/-- What a call of `MoveChatbotToNewNode` that returns has done: the slot of the source node
is empty, the slot of the target holds the `ChatBot` of the source with the current node
set to the target, and the chat logic points to that slot and has received one answer of
the target. -/
theorem MoveChatbotToNewNode_ok {h : Heap} {k t rnd : Nat} {h' : Heap}
    (hok : MoveChatbotToNewNode h k (some t) rnd = .ok h') :
    ∃ nk nt l cl answer,
      h.nodes[k]? = some nk ∧
      (h.nodes.set k { nk with _chatBot := ⟨none, none, none, none⟩ })[t]? = some nt ∧
      nk._chatBot._chatLogic = some l ∧ h.logics[l]? = some cl ∧
      answer ∈ nt._answers ∧
      h'.nodes = (h.nodes.set k { nk with _chatBot := ⟨none, none, none, none⟩ }).set t
        { nt with _chatBot := { nk._chatBot with _currentNode := some t } } ∧
      h'.logics = h.logics.set l { _chatBot := some t, sent := cl.sent ++ [answer] } := by
  rcases hnk : h.nodes[k]? with _ | nk
  · simp [MoveChatbotToNewNode, hnk] at hok
  simp only [MoveChatbotToNewNode, hnk, moveConstruct_fst, moveConstruct_snd] at hok
  obtain ⟨nt, l, cl, answer, h1, h2, h3, h4, h5, h6⟩ := MoveChatbotHere_ok hok
  rw [setChatBot_nodes h k _ nk hnk] at h1 h5
  rw [setChatBot_logics] at h3 h6
  exact ⟨nk, nt, l, cl, answer, rfl, h1, h2, h3, h4, h5, h6⟩

theorem not_holdsSession_empty (n : GraphNode) :
    ¬ holdsSession { n with _chatBot := ⟨none, none, none, none⟩ } := by
  simp [holdsSession]

theorem SessionAt_unique {h : Heap} {l k : Nat} (hs : SessionAt h l k) :
    ∃! j : Nat, ∃ n, h.nodes[j]? = some n ∧ holdsSession n := by
  obtain ⟨⟨nk, hnk, hcur, hlog, hroot⟩, _, hothers⟩ := hs
  refine ⟨k, ⟨nk, hnk, ?_⟩, ?_⟩
  · unfold holdsSession
    rw [hlog]
    exact ⟨by simp, hroot⟩
  · intro j hj
    have hj2 : ∃ n, h.nodes[j]? = some n ∧ holdsSession n := hj
    obtain ⟨n, hn, hholds⟩ := hj2
    by_contra hjk
    exact hothers j n hn hjk hholds

/-- One delivered message keeps the session attached, and a migration to another node
leaves the slot of the old node empty. -/
theorem SendMessageToChatbot_SessionAt {sort : List EdgeDist → List EdgeDist} {h : Heap}
    {l k : Nat} {message : CxxString} {rnd : Nat} {h' : Heap} (hs : SessionAt h l k)
    (hok : SendMessageToChatbot sort h l message rnd = .ok h') :
    ∃ k', SessionAt h' l k' ∧ (k' ≠ k → ∃ n, h'.nodes[k]? = some n ∧ emptySlot n) := by
  obtain ⟨⟨nk, hnk, hcur, hlog, hroot⟩, ⟨cl, hcl, hhandle⟩, hothers⟩ := hs
  simp only [SendMessageToChatbot, hcl, hhandle, hnk, ReceiveMessageFromUser, hcur] at hok
  split at hok
  · exact absurd hok (by simp)
  · rename_i newNode _
    rcases newNode with _ | t
    · simp [MoveChatbotToNewNode, hnk] at hok
    · obtain ⟨nk2, nt, l2, cl2, answer, h1, h2, h3, h4, h5, h6, h7⟩ :=
        MoveChatbotToNewNode_ok hok
      rw [hnk] at h1
      injection h1 with h1
      subst h1
      rw [hlog] at h3
      injection h3 with h3
      subst h3
      have hklt := getElem?_lt hnk
      have htlt : t < h.nodes.length := by
        have := getElem?_lt h2
        simpa using this
      have hllt := getElem?_lt h4
      refine ⟨t, ⟨⟨{ nt with _chatBot := { nk._chatBot with _currentNode := some t } }, ?_,
        rfl, hlog, hroot⟩, ⟨{ _chatBot := some t, sent := cl2.sent ++ [answer] }, ?_, rfl⟩,
        ?_⟩, ?_⟩
      · rw [h6, List.getElem?_set_eq_of_lt _ (by simpa using htlt)]
      · rw [h7, List.getElem?_set_eq_of_lt _ hllt]
      · intro j n hn hjt
        rw [h6, List.getElem?_set_ne (Ne.symm hjt)] at hn
        by_cases hjk : j = k
        · subst hjk
          rw [List.getElem?_set_eq_of_lt _ hklt] at hn
          injection hn with hn
          subst hn
          exact not_holdsSession_empty nk
        · rw [List.getElem?_set_ne (Ne.symm hjk)] at hn
          exact hothers j n hn hjk
      · intro htk
        refine ⟨{ nk with _chatBot := ⟨none, none, none, none⟩ }, ?_, ?_⟩
        · rw [h6, List.getElem?_set_ne htk, List.getElem?_set_eq_of_lt _ hklt]
        · rfl

theorem runMessages_SessionAt {sort : List EdgeDist → List EdgeDist} {l : Nat} :
    ∀ (inputs : List (CxxString × Nat)) {h : Heap} {k : Nat} {h' : Heap},
      SessionAt h l k → runMessages sort l h inputs = .ok h' → ∃ k', SessionAt h' l k' := by
  intro inputs
  induction inputs with
  | nil =>
    intro h k h' hs hrun
    simp only [runMessages] at hrun
    injection hrun with hrun
    subst hrun
    exact ⟨k, hs⟩
  | cons x rest ih =>
    intro h k h' hs hrun
    obtain ⟨message, rnd⟩ := x
    simp only [runMessages] at hrun
    rcases hstep : SendMessageToChatbot sort h l message rnd with h1 | h1 | _
    · rw [hstep] at hrun
      simp only [Outcome.andThen] at hrun
      obtain ⟨k1, hs1, _⟩ := SendMessageToChatbot_SessionAt hs hstep
      exact ih hs1 hrun
    · rw [hstep] at hrun
      simp [Outcome.andThen] at hrun
    · rw [hstep] at hrun
      simp [Outcome.andThen] at hrun

/-! ## Calls that return -/

theorem sizeSub_one (n : Nat) (h1 : 1 ≤ n) (h2 : n < 2 ^ 64) : sizeSub n 1 = n - 1 := by
  unfold sizeSub SIZE_MOD
  have : n + 2 ^ 64 - 1 % 2 ^ 64 = (n - 1) + 2 ^ 64 := by
    have : (1 : Nat) % 2 ^ 64 = 1 := by norm_num
    omega
  rw [this, Nat.add_mod_right, Nat.mod_eq_of_lt (by omega)]

theorem toSize_natCast (n : Nat) (h : n < 2 ^ 64) : toSize (n : Int) = n := by
  unfold toSize
  have h1 : ((n : Int) % (2 ^ 64 : Int)) = (n : Int) := by
    apply Int.emod_eq_of_lt (by omega)
    have : ((2 : Int) ^ 64) = ((2 ^ 64 : Nat) : Int) := by norm_num
    rw [this]
    exact_mod_cast h
  rw [h1]
  simp

/-- The index drawn lies in the vector whenever the upper bound passed to the
distribution is not negative. -/
theorem draw_lt_length (len rnd : Nat) (h1 : 1 ≤ len) (h2 : len ≤ 2 ^ 31) :
    toInt (sizeSub len 1) = ((len - 1 : Nat) : Int) ∧
    toSize (uniform_int_distribution 0 (toInt (sizeSub len 1)) rnd) = rnd % len := by
  have hs : sizeSub len 1 = len - 1 := sizeSub_one len h1 (by omega)
  have ht : toInt (sizeSub len 1) = ((len - 1 : Nat) : Int) := by
    rw [hs, toInt_of_lt _ (by omega)]
  refine ⟨ht, ?_⟩
  rw [ht]
  unfold uniform_int_distribution
  have h3 : ((len - 1 : Nat) : Int) - 0 + 1 = (len : Int) := by omega
  rw [h3]
  have h4 : (0 : Int) + (rnd : Int) % (len : Int) = ((rnd % len : Nat) : Int) := by
    simp
  rw [h4]
  apply toSize_natCast
  have := Nat.mod_lt rnd (show 0 < len by omega)
  omega

/-- The call `SetCurrentNode` returns when the pointers are valid and the answer list of the node
has between 1 and `2^31` entries; the sink then receives the answer at position
`rnd % size`. -/
theorem SetCurrentNode_returns (h : Heap) (this t rnd l : Nat) (holder cur : GraphNode)
    (cl : ChatLogic) (hholder : h.nodes[this]? = some holder)
    (hcur : (h.nodes.set this
      { holder with _chatBot := { holder._chatBot with _currentNode := some t } })[t]? = some cur)
    (hl : holder._chatBot._chatLogic = some l) (hcl : h.logics[l]? = some cl)
    (h1 : 1 ≤ cur._answers.length) (h2 : cur._answers.length ≤ 2 ^ 31) :
    ∃ answer, cur._answers[rnd % cur._answers.length]? = some answer ∧
      SetCurrentNode h this (some t) rnd = .ok
        { nodes := h.nodes.set this
            { holder with _chatBot := { holder._chatBot with _currentNode := some t } },
          logics := h.logics.set l { cl with sent := cl.sent ++ [answer] } } := by
  obtain ⟨hhi, hidx⟩ := draw_lt_length cur._answers.length rnd h1 h2
  have hlt : rnd % cur._answers.length < cur._answers.length := Nat.mod_lt _ (by omega)
  refine ⟨cur._answers[rnd % cur._answers.length], List.getElem?_eq_getElem hlt, ?_⟩
  have hnodes := setChatBot_nodes h this { holder._chatBot with _currentNode := some t }
    holder hholder
  simp only [SetCurrentNode, hholder, Option.bind, hnodes, hcur]
  rw [if_neg (by omega)]
  simp only [hidx, List.getElem?_eq_getElem hlt, SendMessageToUser, hl, setChatBot_logics, hcl]
  simp [Heap.setChatBot, hholder]

/-- The call `SetCurrentNode` has undefined behaviour whenever the bound `size() - 1`, converted to
`int`, is negative. -/
theorem SetCurrentNode_undefined (h : Heap) (this t rnd : Nat) (holder cur : GraphNode)
    (hholder : h.nodes[this]? = some holder)
    (hcur : (h.nodes.set this
      { holder with _chatBot := { holder._chatBot with _currentNode := some t } })[t]? = some cur)
    (hneg : toInt (sizeSub cur._answers.length 1) < 0) :
    SetCurrentNode h this (some t) rnd = .undefined := by
  have hnodes := setChatBot_nodes h this { holder._chatBot with _currentNode := some t }
    holder hholder
  simp only [SetCurrentNode, hholder, Option.bind, hnodes, hcur]
  rw [if_pos hneg]

/-- The call `MoveChatbotHere` returns when the node exists, the chat logic of the parameter is
valid and the answer list of the node has between 1 and `2^31` entries. -/
theorem MoveChatbotHere_returns (h : Heap) (t rnd l : Nat) (bot : ChatBot) (nt : GraphNode)
    (cl : ChatLogic) (hnt : h.nodes[t]? = some nt) (hl : bot._chatLogic = some l)
    (hcl : h.logics[l]? = some cl)
    (h1 : 1 ≤ nt._answers.length) (h2 : nt._answers.length ≤ 2 ^ 31) :
    ∃ answer, nt._answers[rnd % nt._answers.length]? = some answer ∧
      MoveChatbotHere h t bot rnd = .ok
        { nodes := h.nodes.set t { nt with _chatBot := { bot with _currentNode := some t } },
          logics := h.logics.set l { _chatBot := some t, sent := cl.sent ++ [answer] } } := by
  have hlt := getElem?_lt hnt
  have hllt := getElem?_lt hcl
  have hstep : MoveChatbotHere h t bot rnd =
      SetCurrentNode ⟨h.nodes.set t { nt with _chatBot := bot },
        h.logics.set l { cl with _chatBot := some t }⟩ t (some t) rnd := by
    simp only [MoveChatbotHere, hnt, moveAssign_fst, updateChatLogicWithSelf,
      setChatBot_get h t bot nt hnt, SetChatbotHandle, hl, setChatBot_logics, hcl,
      Outcome.andThen, setChatBot_nodes h t bot nt hnt, List.getElem?_set_eq_of_lt _ hlt]
  rw [hstep]
  obtain ⟨answer, ha, hret⟩ := SetCurrentNode_returns
    ⟨h.nodes.set t { nt with _chatBot := bot },
      h.logics.set l { cl with _chatBot := some t }⟩ t t rnd l
    { nt with _chatBot := bot }
    { nt with _chatBot := { bot with _currentNode := some t } }
    { cl with _chatBot := some t }
    (by simp [List.getElem?_set_eq_of_lt _ hlt])
    (by simp [List.getElem?_set_eq_of_lt, hlt])
    hl (by simp [List.getElem?_set_eq_of_lt _ hllt]) h1 h2
  refine ⟨answer, ha, ?_⟩
  rw [hret]
  simp

/-- The call `MoveChatbotToNewNode` returns when both nodes exist, the session of the source node
has a valid chat logic and the answer list of the target has between 1 and `2^31`
entries. -/
theorem MoveChatbotToNewNode_returns {h : Heap} {k t rnd l : Nat} {nk nt : GraphNode}
    {cl : ChatLogic} (hnk : h.nodes[k]? = some nk) (hnt : h.nodes[t]? = some nt)
    (hl : nk._chatBot._chatLogic = some l) (hcl : h.logics[l]? = some cl)
    (h1 : 1 ≤ nt._answers.length) (h2 : nt._answers.length ≤ 2 ^ 31) :
    ∃ h', MoveChatbotToNewNode h k (some t) rnd = .ok h' := by
  have hklt := getElem?_lt hnk
  have htlt := getElem?_lt hnt
  simp only [MoveChatbotToNewNode, hnk, moveConstruct_fst, moveConstruct_snd]
  by_cases hkt : k = t
  · subst hkt
    obtain ⟨answer, _, hret⟩ := MoveChatbotHere_returns
      (h.setChatBot k ⟨none, none, none, none⟩) k rnd l nk._chatBot
      { nk with _chatBot := ⟨none, none, none, none⟩ } cl
      (setChatBot_get h k _ nk hnk) hl (by rw [setChatBot_logics]; exact hcl)
      (by rw [hnk] at hnt; injection hnt with hnt; subst hnt; exact h1)
      (by rw [hnk] at hnt; injection hnt with hnt; subst hnt; exact h2)
    exact ⟨_, hret⟩
  · obtain ⟨answer, _, hret⟩ := MoveChatbotHere_returns
      (h.setChatBot k ⟨none, none, none, none⟩) t rnd l nk._chatBot nt cl
      (by rw [setChatBot_nodes h k _ nk hnk, List.getElem?_set_ne hkt]; exact hnt)
      hl (by rw [setChatBot_logics]; exact hcl) h1 h2
    exact ⟨_, hret⟩

/-! ## The session and its owner -/

theorem SessionAt_exampleHeap : SessionAt exampleHeap 0 0 := by
  refine ⟨⟨_, rfl, rfl, rfl, by decide⟩, ⟨_, rfl, rfl⟩, ?_⟩
  intro j n hn hj
  match j, hj with
  | 1, _ =>
    have : n = _ := (Option.some.inj hn).symm
    subst this
    decide
  | 2, _ =>
    have : n = _ := (Option.some.inj hn).symm
    subst this
    decide
  | j + 3, _ => exact absurd hn (by simp [exampleHeap])

/-- C6: whenever `MoveChatbotToNewNode(target)` returns, the slot of the target node
holds the `ChatBot` that was in the slot of the source node, with its current node set to
the target; and the call does return when both nodes exist, the session has a valid chat
logic and the target has between 1 and `2^31` answers. -/
theorem MoveChatbotToNewNode_current_node_is_owner :
    (∀ (h : Heap) (k t rnd : Nat) (h' : Heap),
      MoveChatbotToNewNode h k (some t) rnd = .ok h' →
      ∃ nk n, h.nodes[k]? = some nk ∧ h'.nodes[t]? = some n ∧
        n._chatBot._currentNode = some t ∧
        n._chatBot = { nk._chatBot with _currentNode := some t }) ∧
    (∀ (h : Heap) (k t rnd l : Nat) (nk nt : GraphNode) (cl : ChatLogic),
      h.nodes[k]? = some nk → h.nodes[t]? = some nt →
      nk._chatBot._chatLogic = some l → h.logics[l]? = some cl →
      1 ≤ nt._answers.length → nt._answers.length ≤ 2 ^ 31 →
      ∃ h', MoveChatbotToNewNode h k (some t) rnd = .ok h') := by
  constructor
  · intro h k t rnd h' hok
    obtain ⟨nk, nt, l, cl, answer, h1, h2, h3, h4, h5, h6, h7⟩ := MoveChatbotToNewNode_ok hok
    have htlt := getElem?_lt h2
    refine ⟨nk, { nt with _chatBot := { nk._chatBot with _currentNode := some t } }, h1, ?_,
      rfl, rfl⟩
    rw [h6, List.getElem?_set_eq_of_lt _ htlt]
  · intro h k t rnd l nk nt cl hnk hnt hl hcl h1 h2
    exact MoveChatbotToNewNode_returns hnk hnt hl hcl h1 h2

/-- C6, on the example graph: the migration from the root into node 1 returns and the
session in node 1 has node 1 as its current node. -/
theorem MoveChatbotToNewNode_current_node_is_owner_witness :
    MoveChatbotToNewNode exampleHeap 0 (some 1) 5 = .ok exampleHeapAfterHai ∧
    ∃ nk n, exampleHeap.nodes[0]? = some nk ∧ exampleHeapAfterHai.nodes[1]? = some n ∧
      n._chatBot._currentNode = some 1 ∧
      n._chatBot = { nk._chatBot with _currentNode := some 1 } :=
  ⟨by decide,
    MoveChatbotToNewNode_current_node_is_owner.1 exampleHeap 0 1 5 exampleHeapAfterHai
      (by decide)⟩

/-- C7, as stated, fails on a node with `2^31 + 1` answers: the answer list is not empty,
but `size() - 1` converted to `int` is negative and no answer is sent. -/
theorem SetCurrentNode_big_answer_list :
    bigHeap.nodes[0]? = some bigNode ∧ bigNode._answers.length = 2 ^ 31 + 1 ∧
    SetCurrentNode bigHeap 0 (some 0) 0 = .undefined := by
  have hlen : bigNode._answers.length = 2 ^ 31 + 1 := List.length_replicate _ _
  refine ⟨rfl, hlen, ?_⟩
  apply SetCurrentNode_undefined bigHeap 0 0 0 bigNode
    { bigNode with _chatBot := { bigNode._chatBot with _currentNode := some 0 } } rfl rfl
  have hlen2 : ({ bigNode with _chatBot := { bigNode._chatBot with _currentNode := some 0 } }
      : GraphNode)._answers.length = 2 ^ 31 + 1 := hlen
  rw [hlen2]
  decide

/-- C7, amended: on a migration into a node whose answer list has between 1 and `2^31`
entries, with a valid chat logic, `SetCurrentNode` returns for every generator output,
the index `i` it draws lies in `0 .. size - 1`, and the sink of the chat logic receives
exactly one more text, the answer at index `i`; the other chat logics are untouched. -/
theorem SetCurrentNode_sends_one_answer (h : Heap) (t rnd l : Nat) (holder : GraphNode)
    (cl : ChatLogic) (hholder : h.nodes[t]? = some holder)
    (hl : holder._chatBot._chatLogic = some l) (hcl : h.logics[l]? = some cl)
    (h1 : 1 ≤ holder._answers.length) (h2 : holder._answers.length ≤ 2 ^ 31) :
    ∃ (i : Nat) (answer : CxxString) (h' : Heap),
      toSize (uniform_int_distribution 0 (toInt (sizeSub holder._answers.length 1)) rnd) = i ∧
      i < holder._answers.length ∧ holder._answers[i]? = some answer ∧
      answer ∈ holder._answers ∧
      SetCurrentNode h t (some t) rnd = .ok h' ∧
      h'.logics[l]? = some { cl with sent := cl.sent ++ [answer] } ∧
      ∀ l2, l2 ≠ l → h'.logics[l2]? = h.logics[l2]? := by
  have hlt := getElem?_lt hholder
  have hllt := getElem?_lt hcl
  obtain ⟨answer, ha, hret⟩ := SetCurrentNode_returns h t t rnd l holder
    { holder with _chatBot := { holder._chatBot with _currentNode := some t } } cl hholder
    (by simp [List.getElem?_set_eq_of_lt _ hlt]) hl hcl h1 h2
  refine ⟨rnd % holder._answers.length, answer, _,
    (draw_lt_length holder._answers.length rnd h1 h2).2, Nat.mod_lt _ (by omega), ha,
    List.getElem?_mem ha, hret, ?_, ?_⟩
  · simp [List.getElem?_set_eq_of_lt _ hllt]
  · intro l2 hl2
    simp [List.getElem?_set_ne (Ne.symm hl2)]

/-- C7, amended, on the example graph: the root has one answer, and setting the current
node of the session in the root sends that answer. -/
theorem SetCurrentNode_sends_one_answer_witness :
    1 ≤ ["Welcome".toList].length ∧ ["Welcome".toList].length ≤ 2 ^ 31 ∧
    ∃ (i : Nat) (answer : CxxString) (h' : Heap),
      i < ["Welcome".toList].length ∧ ["Welcome".toList][i]? = some answer ∧
      answer ∈ ["Welcome".toList] ∧
      SetCurrentNode exampleHeap 0 (some 0) 7 = .ok h' ∧
      h'.logics[0]? = some { _chatBot := some 0, sent := [] ++ [answer] } ∧
      ∀ l2, l2 ≠ 0 → h'.logics[l2]? = exampleHeap.logics[l2]? := by
  refine ⟨by decide, by decide, ?_⟩
  obtain ⟨i, answer, h', _, h2, h3, h4, h5, h6, h7⟩ :=
    SetCurrentNode_sends_one_answer exampleHeap 0 7 0 _ _ rfl rfl rfl (by decide) (by decide)
  exact ⟨i, answer, h', h2, h3, h4, h5, h6, h7⟩

/-- C8: on a migration into a node whose answer list is empty, `SetCurrentNode` neither
returns nor throws: the distribution is constructed over `0 .. -1`, which is undefined
behaviour, and `answers.at` is not reached. -/
theorem SetCurrentNode_empty_answers_undefined (h : Heap) (t rnd : Nat) (holder : GraphNode)
    (hholder : h.nodes[t]? = some holder) (hempty : holder._answers = []) :
    SetCurrentNode h t (some t) rnd = .undefined := by
  have hlt := getElem?_lt hholder
  apply SetCurrentNode_undefined h t t rnd holder
    { holder with _chatBot := { holder._chatBot with _currentNode := some t } } hholder
    (by simp [List.getElem?_set_eq_of_lt _ hlt])
  simp only [hempty, List.length_nil]
  decide

/-- C8, on a graph whose node 1 has no answers: the call inside the migration from the
root to node 1 is undefined, and so is the migration. -/
theorem SetCurrentNode_empty_answers_undefined_witness :
    (∃ holder, emptyAnswerHeap.nodes[1]? = some holder ∧ holder._answers = []) ∧
    SetCurrentNode emptyAnswerHeap 1 (some 1) 0 = .undefined ∧
    ReceiveMessageFromUser std_sort emptyAnswerHeap (sessionAtNode 0) "go".toList 0
      = .undefined :=
  ⟨⟨_, rfl, rfl⟩, SetCurrentNode_empty_answers_undefined emptyAnswerHeap 1 0 _ rfl rfl,
    by decide⟩

/-- C9, as stated, fails: on a freshly constructed `ChatBot` whose current node handle is
null the call ends in undefined behaviour, not in an explicit failure; and when the handle
left unassigned by the constructor happens to address the root, the call migrates the
session that sits there. -/
theorem ReceiveMessageFromUser_fresh_not_explicit :
    ReceiveMessageFromUser std_sort exampleHeap (ChatBot.new none) "hai".toList 0 = .undefined ∧
    (¬ ∃ h', ReceiveMessageFromUser std_sort exampleHeap (ChatBot.new none) "hai".toList 0
      = .thrown h') ∧
    ReceiveMessageFromUser std_sort exampleHeap (ChatBot.new (some 0)) "hai".toList 5
      = .ok exampleHeapAfterHai := by
  have h : ReceiveMessageFromUser std_sort exampleHeap (ChatBot.new none) "hai".toList 0
      = .undefined := rfl
  refine ⟨h, ?_, by decide⟩
  rintro ⟨h', hh⟩
  rw [h] at hh
  exact absurd hh (by simp)

/-- C9, amended: `ReceiveMessageFromUser` on a `ChatBot` that was never attached and whose
current node handle is null dereferences that handle at once: for every heap, message and
generator output the call is undefined behaviour, no error is signalled and no node is
touched. -/
theorem ReceiveMessageFromUser_fresh_undefined (sort : List EdgeDist → List EdgeDist)
    (h : Heap) (message : CxxString) (rnd : Nat) :
    ReceiveMessageFromUser sort h (ChatBot.new none) message rnd = .undefined := rfl

/-! ## Edge selection -/

theorem keywordLoop_eq (edge : Nat) (message : CxxString) (keywords : List CxxString) :
    ∀ levDists : List EdgeDist,
      keywordLoop edge message keywords levDists
        = levDists ++ keywords.map
            (fun keyword => (edge, ComputeLevenshteinDistance keyword message)) := by
  induction keywords with
  | nil => intro levDists; simp [keywordLoop]
  | cons kw rest ih => intro levDists; simp [keywordLoop, ih]

theorem toInt_two_pow_31 : toInt (2 ^ 31) = -2 ^ 31 := by decide

theorem toSize_neg_two_pow_31 : toSize (-2 ^ 31) = 2 ^ 64 - 2 ^ 31 := by decide

/-- Below `2^31` the `size_t` counter comes back unchanged from its passage through the
`int` parameter, and `GetChildEdgeAtIndex` gives the edge at that position. -/
theorem GetChildEdgeAtIndex_of_lt (cur : GraphNode) (i : Nat) (h31 : i < 2 ^ 31)
    (hi : i < cur._childEdges.length) : GetChildEdgeAtIndex cur (toInt i) = some i := by
  unfold GetChildEdgeAtIndex
  rw [toInt_of_lt i h31, toSize_natCast i (by omega), if_pos hi]

/-- At the counter `2^31` the index is `-2^31`, which `operator[]` reads as
`2^64 - 2^31`: past the end of every vector of at most `2^64 - 2^31` edges. -/
theorem GetChildEdgeAtIndex_two_pow_31 (cur : GraphNode)
    (hlen : cur._childEdges.length ≤ 2 ^ 64 - 2 ^ 31) :
    GetChildEdgeAtIndex cur (toInt (2 ^ 31)) = none := by
  unfold GetChildEdgeAtIndex
  rw [toInt_two_pow_31, toSize_neg_two_pow_31, if_neg (by omega)]

/-- For at most `2^31` edges the two loops of lines 130-138 push the pairs in the order of
the enumeration. -/
theorem edgeLoop_eq_candidates (message : CxxString) (cur : GraphNode)
    (hlen : cur._childEdges.length ≤ 2 ^ 31) :
    ∀ (remaining i : Nat) (levDists : List EdgeDist),
      i + remaining = cur._childEdges.length →
      edgeLoop message cur remaining i levDists
        = some (levDists ++ candidates message (cur._childEdges.drop i) i) := by
  intro remaining
  induction remaining with
  | zero =>
    intro i levDists hi
    have hdrop : cur._childEdges.drop i = [] := List.drop_eq_nil_of_le (by omega)
    simp [edgeLoop, hdrop, candidates]
  | succ r ih =>
    intro i levDists hi
    have hilt : i < cur._childEdges.length := by omega
    have hget : cur._childEdges[i]? = some (cur._childEdges[i]) :=
      List.getElem?_eq_getElem hilt
    have hdrop : cur._childEdges.drop i = cur._childEdges[i] :: cur._childEdges.drop (i + 1) :=
      List.drop_eq_getElem_cons hilt
    simp only [edgeLoop, GetChildEdgeAtIndex_of_lt cur i (by omega) hilt, hget]
    rw [ih (i + 1) _ (by omega), hdrop, keywordLoop_eq]
    simp [candidates]

theorem edgeLoop_candidates (message : CxxString) (cur : GraphNode)
    (hlen : cur._childEdges.length ≤ 2 ^ 31) :
    edgeLoop message cur (GetNumberOfChildEdges cur) 0 []
      = some (candidates message cur._childEdges 0) := by
  rw [edgeLoop_eq_candidates message cur hlen _ 0 [] (by simp [GetNumberOfChildEdges])]
  simp

/-- With more than `2^31` edges the loop of lines 130-138 reaches the counter `2^31` and
indexes `_childEdges` past its end. -/
theorem edgeLoop_undefined (message : CxxString) (cur : GraphNode)
    (hlen : cur._childEdges.length ≤ 2 ^ 64 - 2 ^ 31) :
    ∀ (remaining i : Nat) (levDists : List EdgeDist), i ≤ 2 ^ 31 → 2 ^ 31 < i + remaining →
      edgeLoop message cur remaining i levDists = none := by
  intro remaining
  induction remaining with
  | zero => intro i levDists h1 h2; omega
  | succ r ih =>
    intro i levDists h1 h2
    by_cases hi : i = 2 ^ 31
    · subst hi
      simp only [edgeLoop, GetChildEdgeAtIndex_two_pow_31 cur hlen]
    · simp only [edgeLoop]
      split
      · rfl
      · split
        · rfl
        · exact ih (i + 1) _ (by omega) (by omega)

theorem mem_candidates (message : CxxString) (edges : List GraphEdge) :
    ∀ (i : Nat) (p : EdgeDist), p ∈ candidates message edges i ↔
      ∃ j e kw, edges[j]? = some e ∧ kw ∈ e._keywords ∧
        p = (i + j, ComputeLevenshteinDistance kw message) := by
  induction edges with
  | nil => intro i p; simp [candidates]
  | cons e rest ih =>
    intro i p
    simp only [candidates, List.mem_append, List.mem_map, ih]
    constructor
    · rintro (⟨kw, hkw, rfl⟩ | ⟨j, e2, kw, hj, hkw, rfl⟩)
      · exact ⟨0, e, kw, by simp, hkw, by simp⟩
      · exact ⟨j + 1, e2, kw, by simpa using hj, hkw, by
          simp only [Prod.mk.injEq, and_true]; omega⟩
    · rintro ⟨j, e2, kw, hj, hkw, rfl⟩
      cases j with
      | zero =>
        simp only [List.getElem?_cons_zero, Option.some.injEq] at hj
        subst hj
        exact Or.inl ⟨kw, hkw, by simp⟩
      | succ j =>
        simp only [List.getElem?_cons_succ] at hj
        exact Or.inr ⟨j, e2, kw, hj, hkw, by
          simp only [Prod.mk.injEq, and_true]; omega⟩

theorem candidates_eq_nil (message : CxxString) (edges : List GraphEdge)
    (hempty : ∀ e ∈ edges, e._keywords = []) : ∀ i, candidates message edges i = [] := by
  induction edges with
  | nil => intro i; rfl
  | cons e rest ih =>
    intro i
    simp only [candidates]
    rw [hempty e (List.mem_cons_self _ _), ih (fun e2 he2 => hempty e2 (List.mem_cons_of_mem _ he2))]
    rfl

/-- The head of an ascending permutation of a list is one of its least elements. -/
theorem head_of_sorted_perm (sorted ds : List EdgeDist) (x : EdgeDist)
    (hperm : sorted.Perm ds) (hasc : sorted.Pairwise (fun a b => ¬ b.2 < a.2))
    (hhead : sorted[0]? = some x) : x ∈ ds ∧ ∀ p ∈ ds, x.2 ≤ p.2 := by
  cases sorted with
  | nil => simp at hhead
  | cons y rest =>
    simp only [List.getElem?_cons_zero, Option.some.injEq] at hhead
    subst hhead
    refine ⟨hperm.subset (List.mem_cons_self _ _), fun p hp => ?_⟩
    have hp2 : p ∈ y :: rest := hperm.symm.subset hp
    rcases List.mem_cons.mp hp2 with rfl | hp3
    · exact le_refl _
    · exact not_lt.mp ((List.pairwise_cons.mp hasc).1 p hp3)

theorem selectNewNode_of_head (sort : List EdgeDist → List EdgeDist) (cur : GraphNode)
    (rootNode : Option Nat) (message : CxxString) (x : EdgeDist) (e : GraphEdge)
    (hlen : cur._childEdges.length ≤ 2 ^ 31)
    (hne : candidates message cur._childEdges 0 ≠ [])
    (hhead : (sort (candidates message cur._childEdges 0))[0]? = some x)
    (he : cur._childEdges[x.1]? = some e) :
    selectNewNode sort cur rootNode message = some e._childNode := by
  unfold selectNewNode
  simp only [edgeLoop_candidates message cur hlen]
  rw [if_pos (List.length_pos.mpr hne), hhead]
  simp only [he]

theorem selectNewNode_of_nil (sort : List EdgeDist → List EdgeDist) (cur : GraphNode)
    (rootNode : Option Nat) (message : CxxString)
    (hlen : cur._childEdges.length ≤ 2 ^ 31)
    (hnil : candidates message cur._childEdges 0 = []) :
    selectNewNode sort cur rootNode message = some rootNode := by
  unfold selectNewNode
  simp only [edgeLoop_candidates message cur hlen, hnil]
  rfl

theorem selectNewNode_undefined (sort : List EdgeDist → List EdgeDist) (cur : GraphNode)
    (rootNode : Option Nat) (message : CxxString)
    (h1 : 2 ^ 31 < cur._childEdges.length) (h2 : cur._childEdges.length ≤ 2 ^ 64 - 2 ^ 31) :
    selectNewNode sort cur rootNode message = none := by
  unfold selectNewNode
  rw [edgeLoop_undefined message cur h2 _ 0 [] (by omega)
    (by simp only [GetNumberOfChildEdges]; omega)]

theorem ReceiveMessageFromUser_of_select (sort : List EdgeDist → List EdgeDist) (h : Heap)
    (self : ChatBot) (message : CxxString) (rnd c : Nat) (cur : GraphNode)
    (newNode : Option Nat) (hc : self._currentNode = some c) (hcur : h.nodes[c]? = some cur)
    (hsel : selectNewNode sort cur self._rootNode message = some newNode) :
    ReceiveMessageFromUser sort h self message rnd = MoveChatbotToNewNode h c newNode rnd := by
  simp only [ReceiveMessageFromUser, hc, hcur, hsel]

/-- Where a migration that returns has put the session, and when a migration returns. -/
theorem MoveChatbotToNewNode_migrates (h : Heap) (c rnd : Nat) (cur : GraphNode)
    (target : Option Nat) (hcur : h.nodes[c]? = some cur) :
    (∀ h', MoveChatbotToNewNode h c target rnd = .ok h' →
      ∃ t n, target = some t ∧ h'.nodes[t]? = some n ∧
        n._chatBot = { cur._chatBot with _currentNode := some t }) ∧
    (∀ (t l : Nat) (nt : GraphNode) (cl : ChatLogic), target = some t →
      h.nodes[t]? = some nt → cur._chatBot._chatLogic = some l → h.logics[l]? = some cl →
      1 ≤ nt._answers.length → nt._answers.length ≤ 2 ^ 31 →
      ∃ h', MoveChatbotToNewNode h c target rnd = .ok h') := by
  constructor
  · intro h' hok
    rcases target with _ | t
    · simp [MoveChatbotToNewNode, hcur] at hok
    · obtain ⟨nk, nt, l, cl, answer, h1, h2, h3, h4, h5, h6, h7⟩ := MoveChatbotToNewNode_ok hok
      rw [hcur] at h1
      injection h1 with h1
      subst h1
      refine ⟨t, { nt with _chatBot := { cur._chatBot with _currentNode := some t } }, rfl, ?_,
        rfl⟩
      rw [h6, List.getElem?_set_eq_of_lt _ (getElem?_lt h2)]
  · intro t l nt cl ht hnt hl hcl h1 h2
    subst ht
    exact MoveChatbotToNewNode_returns hcur hnt hl hcl h1 h2

/-- Below `2^31` characters the `int` returned by `ComputeLevenshteinDistance` is the value
of the recurrence on the upper-cased strings. -/
theorem ComputeLevenshteinDistance_eq_lev (a b : List Char) (ha : a.length < 2 ^ 31)
    (hb : b.length < 2 ^ 31) :
    ComputeLevenshteinDistance a b = ((lev (a.map toupper) (b.map toupper) : Nat) : Int) := by
  have ha1 : a.length < 2 ^ 63 := by omega
  have hb1 : b.length < 2 ^ 63 := by omega
  have hle := levenshteinCost_le_max a b ha1 hb1
  unfold ComputeLevenshteinDistance
  rw [toInt_of_lt _ (by omega), levenshteinCost_eq_lev a b ha1 hb1]

/-- The least number of edits between two strings is the value of the recurrence. -/
theorem isLeast_editsIn_eq_lev (a b : List Char) (d : Nat)
    (hd : IsLeast {n | EditsIn n a b} d) : d = lev a b :=
  hd.unique (lev_isLeast a b)

/-- What the selection of lines 126-152 does when `std::sort` has put the pairs in
ascending order of distance, for at most `2^31` edges and strings shorter than `2^31`:
the loops build the enumeration, and the pair at the front belongs to an edge of the node
and one of its keywords, whose edit distance to the message is the least over all pairs;
the call is the migration to the target of that edge. -/
theorem ReceiveMessageFromUser_front (sort : List EdgeDist → List EdgeDist) (h : Heap)
    (self : ChatBot) (message : CxxString) (rnd c : Nat) (cur : GraphNode)
    (hc : self._currentNode = some c) (hcur : h.nodes[c]? = some cur)
    (hedges : cur._childEdges.length ≤ 2 ^ 31) (hmsg : message.length < 2 ^ 31)
    (hkws : ∀ e ∈ cur._childEdges, ∀ kw ∈ e._keywords, kw.length < 2 ^ 31)
    (hne : candidates message cur._childEdges 0 ≠ [])
    (hperm : (sort (candidates message cur._childEdges 0)).Perm
      (candidates message cur._childEdges 0))
    (hasc : (sort (candidates message cur._childEdges 0)).Pairwise (fun a b => ¬ b.2 < a.2)) :
    ∃ (i : Nat) (e : GraphEdge) (kw : CxxString),
      (sort (candidates message cur._childEdges 0))[0]?
        = some (i, ComputeLevenshteinDistance kw message) ∧
      cur._childEdges[i]? = some e ∧ kw ∈ e._keywords ∧
      ComputeLevenshteinDistance kw message
        = ((lev (kw.map toupper) (message.map toupper) : Nat) : Int) ∧
      (∀ e2 ∈ cur._childEdges, ∀ kw2 ∈ e2._keywords,
        ComputeLevenshteinDistance kw message ≤ ComputeLevenshteinDistance kw2 message) ∧
      (∀ e2 ∈ cur._childEdges, ∀ kw2 ∈ e2._keywords,
        lev (kw.map toupper) (message.map toupper)
          ≤ lev (kw2.map toupper) (message.map toupper)) ∧
      ReceiveMessageFromUser sort h self message rnd
        = MoveChatbotToNewNode h c e._childNode rnd := by
  have hlen : 0 < (sort (candidates message cur._childEdges 0)).length := by
    rw [hperm.length_eq]
    exact List.length_pos.mpr hne
  have hhead : (sort (candidates message cur._childEdges 0))[0]?
      = some ((sort (candidates message cur._childEdges 0))[0]) := List.getElem?_eq_getElem hlen
  obtain ⟨hmem, hmin⟩ := head_of_sorted_perm _ _ _ hperm hasc hhead
  obtain ⟨j, e, kw, hj, hkw, hx⟩ := (mem_candidates message cur._childEdges 0 _).mp hmem
  rw [hx] at hhead hmin
  simp only [Nat.zero_add] at hhead hmin
  have hsel := selectNewNode_of_head sort cur self._rootNode message _ e (by omega) hne hhead hj
  have hrec := ReceiveMessageFromUser_of_select sort h self message rnd c cur _ hc hcur hsel
  have hmin2 : ∀ e2 ∈ cur._childEdges, ∀ kw2 ∈ e2._keywords,
      ComputeLevenshteinDistance kw message ≤ ComputeLevenshteinDistance kw2 message := by
    intro e2 he2 kw2 hkw2
    obtain ⟨j2, hj2⟩ := List.mem_iff_getElem?.mp he2
    exact hmin _ ((mem_candidates message cur._childEdges 0 _).mpr ⟨j2, e2, kw2, hj2, hkw2, rfl⟩)
  have hkwlen := hkws e (List.getElem?_mem hj) kw hkw
  refine ⟨j, e, kw, hhead, hj, hkw, ComputeLevenshteinDistance_eq_lev kw message hkwlen hmsg,
    hmin2, ?_, hrec⟩
  intro e2 he2 kw2 hkw2
  have hle := hmin2 e2 he2 kw2 hkw2
  rw [ComputeLevenshteinDistance_eq_lev kw message hkwlen hmsg,
    ComputeLevenshteinDistance_eq_lev kw2 message (hkws e2 he2 kw2 hkw2) hmsg] at hle
  exact_mod_cast hle

/-- C2, amended: when the current node has at most `2^31` edges and yields at least one
(edge, keyword) pair, the message and the keywords are shorter than `2^31`, and
`std::sort` has put the pairs in ascending order of distance, the pair chosen belongs to
an edge of the node and to one of the keywords of that edge (so an edge without keywords
is not chosen), the least number `d` of edits between that keyword and the message is
the least over all pairs of the node, and `ReceiveMessageFromUser` is the migration of the
session to the target of that edge: the call returns when the target exists with 1 to
`2^31` answers, and when it returns the target holds the session.  On the example graph
the message "hai" moves the session from the root to node 1. -/
theorem ReceiveMessageFromUser_selects_closest_edge :
    (∀ (sort : List EdgeDist → List EdgeDist) (h : Heap) (self : ChatBot)
      (message : CxxString) (rnd c : Nat) (cur : GraphNode),
      self._currentNode = some c → h.nodes[c]? = some cur →
      cur._childEdges.length ≤ 2 ^ 31 → message.length < 2 ^ 31 →
      (∀ e ∈ cur._childEdges, ∀ kw ∈ e._keywords, kw.length < 2 ^ 31) →
      candidates message cur._childEdges 0 ≠ [] →
      (sort (candidates message cur._childEdges 0)).Perm (candidates message cur._childEdges 0) →
      (sort (candidates message cur._childEdges 0)).Pairwise (fun a b => ¬ b.2 < a.2) →
      edgeLoop message cur (GetNumberOfChildEdges cur) 0 []
        = some (candidates message cur._childEdges 0) ∧
      ∃ (i : Nat) (e : GraphEdge) (kw : CxxString) (d : Nat),
        (sort (candidates message cur._childEdges 0))[0]?
          = some (i, ComputeLevenshteinDistance kw message) ∧
        cur._childEdges[i]? = some e ∧ kw ∈ e._keywords ∧
        ComputeLevenshteinDistance kw message = (d : Int) ∧
        IsLeast {n | EditsIn n (kw.map toupper) (message.map toupper)} d ∧
        (∀ e2 ∈ cur._childEdges, ∀ kw2 ∈ e2._keywords, ∀ d2 : Nat,
          IsLeast {n | EditsIn n (kw2.map toupper) (message.map toupper)} d2 → d ≤ d2) ∧
        ReceiveMessageFromUser sort h self message rnd
          = MoveChatbotToNewNode h c e._childNode rnd ∧
        (∀ h', ReceiveMessageFromUser sort h self message rnd = .ok h' →
          ∃ t n, e._childNode = some t ∧ h'.nodes[t]? = some n ∧
            n._chatBot = { cur._chatBot with _currentNode := some t }) ∧
        (∀ (t l : Nat) (nt : GraphNode) (cl : ChatLogic), e._childNode = some t →
          h.nodes[t]? = some nt → cur._chatBot._chatLogic = some l → h.logics[l]? = some cl →
          1 ≤ nt._answers.length → nt._answers.length ≤ 2 ^ 31 →
          ∃ h', ReceiveMessageFromUser sort h self message rnd = .ok h')) ∧
    ReceiveMessageFromUser std_sort exampleHeap (sessionAtNode 0) "hai".toList 5
      = .ok exampleHeapAfterHai := by
  refine ⟨?_, by decide⟩
  intro sort h self message rnd c cur hc hcur hedges hmsg hkws hne hperm hasc
  obtain ⟨i, e, kw, hhead, hi, hkw, hval, -, hmin, hrec⟩ :=
    ReceiveMessageFromUser_front sort h self message rnd c cur hc hcur hedges hmsg hkws hne
      hperm hasc
  obtain ⟨hpost, htotal⟩ := MoveChatbotToNewNode_migrates h c rnd cur e._childNode hcur
  refine ⟨edgeLoop_candidates message cur (by omega), i, e, kw, _, hhead, hi, hkw, hval,
    lev_isLeast _ _, ?_, hrec, ?_, ?_⟩
  · intro e2 he2 kw2 hkw2 d2 hd2
    rw [isLeast_editsIn_eq_lev _ _ d2 hd2]
    exact hmin e2 he2 kw2 hkw2
  · intro h' hok
    rw [hrec] at hok
    exact hpost h' hok
  · intro t l nt cl ht hnt hl hcl h1 h2
    rw [hrec]
    exact htotal t l nt cl ht hnt hl hcl h1 h2

/-- C2, amended, on the example graph with the sort routine of the GNU library: the
candidates are (E1, 1) and (E2, 3), the sorted vector is an ascending permutation of
them, and the conclusion holds for the message "hai". -/
theorem ReceiveMessageFromUser_selects_closest_edge_witness :
    (sessionAtNode 0)._currentNode = some 0 ∧
    candidates "hai".toList
        [ { _keywords := ["hi".toList], _childNode := some 1 },
          { _keywords := ["bye".toList], _childNode := some 2 } ] 0 = [(0, 1), (1, 3)] ∧
    (std_sort [(0, 1), (1, 3)]).Perm [(0, 1), (1, 3)] ∧
    (std_sort [(0, 1), (1, 3)]).Pairwise (fun a b => ¬ b.2 < a.2) ∧
    ∃ (i : Nat) (e : GraphEdge) (kw : CxxString) (d : Nat),
      (std_sort (candidates "hai".toList
        [ { _keywords := ["hi".toList], _childNode := some 1 },
          { _keywords := ["bye".toList], _childNode := some 2 } ] 0))[0]?
        = some (i, ComputeLevenshteinDistance kw "hai".toList) ∧
      ([ { _keywords := ["hi".toList], _childNode := some 1 },
         { _keywords := ["bye".toList], _childNode := some 2 } ] : List GraphEdge)[i]? = some e ∧
      kw ∈ e._keywords ∧
      IsLeast {n | EditsIn n (kw.map toupper) ("hai".toList.map toupper)} d ∧
      ReceiveMessageFromUser std_sort exampleHeap (sessionAtNode 0) "hai".toList 5
        = MoveChatbotToNewNode exampleHeap 0 e._childNode 5 := by
  refine ⟨rfl, by decide, by decide, by decide, ?_⟩
  obtain ⟨_, i, e, kw, d, h1, h2, h3, _, h4, _, h5, _⟩ :=
    ReceiveMessageFromUser_selects_closest_edge.1 std_sort exampleHeap (sessionAtNode 0)
      "hai".toList 5 0 _ rfl rfl (by decide) (by decide) (by decide) (by decide) (by decide)
      (by decide)
  exact ⟨i, e, kw, d, h1, h2, h3, h4, h5⟩

/-- With more than `2^31` outgoing edges (and at most `2^64 - 2^31`) the call indexes
`_childEdges` past its end, whatever the keywords, the message and the sort routine. -/
theorem ReceiveMessageFromUser_undefined_of_many_edges (sort : List EdgeDist → List EdgeDist)
    (h : Heap) (self : ChatBot) (message : CxxString) (rnd c : Nat) (cur : GraphNode)
    (hc : self._currentNode = some c) (hcur : h.nodes[c]? = some cur)
    (h1 : 2 ^ 31 < cur._childEdges.length) (h2 : cur._childEdges.length ≤ 2 ^ 64 - 2 ^ 31) :
    ReceiveMessageFromUser sort h self message rnd = .undefined := by
  simp only [ReceiveMessageFromUser, hc, hcur,
    selectNewNode_undefined sort cur self._rootNode message h1 h2]

/-- C4, as stated, fails on a node with `2^31 + 1` outgoing edges, all without keywords:
the node yields no (edge, keyword) pair, but the loop counter `2^31` reaches
`GetChildEdgeAtIndex(int)` as `-2^31` and `_childEdges` is indexed past its end; the
session is not migrated to the root. -/
theorem ReceiveMessageFromUser_many_edges_undefined :
    manyEdgesHeap.nodes[0]? = some manyEdgesNode ∧
    manyEdgesNode._childEdges.length = 2 ^ 31 + 1 ∧
    (∀ e ∈ manyEdgesNode._childEdges, e._keywords = []) ∧
    candidates "x".toList manyEdgesNode._childEdges 0 = [] ∧
    ReceiveMessageFromUser std_sort manyEdgesHeap (sessionAtNode 0) "x".toList 0
      = .undefined := by
  have hlen : manyEdgesNode._childEdges.length = 2 ^ 31 + 1 := List.length_replicate _ _
  have hempty : ∀ e ∈ manyEdgesNode._childEdges, e._keywords = [] := by
    intro e he
    rw [List.eq_of_mem_replicate he]
  refine ⟨rfl, hlen, hempty, candidates_eq_nil _ _ hempty 0, ?_⟩
  apply ReceiveMessageFromUser_undefined_of_many_edges std_sort manyEdgesHeap (sessionAtNode 0)
    "x".toList 0 0 manyEdgesNode rfl rfl
  · rw [hlen]; decide
  · rw [hlen]; decide

/-- C4, amended: when the current node has no outgoing edge, or at most `2^31` outgoing
edges that are all without keywords, `ReceiveMessageFromUser` is, for
every message, the migration of the session to the root node of the `ChatBot`: the call
returns when the root exists with 1 to `2^31` answers, and when it returns the root holds
the session. -/
theorem ReceiveMessageFromUser_falls_back_to_root
    (sort : List EdgeDist → List EdgeDist) (h : Heap) (self : ChatBot)
    (message : CxxString) (rnd c : Nat) (cur : GraphNode)
    (hc : self._currentNode = some c) (hcur : h.nodes[c]? = some cur)
    (hedges : cur._childEdges.length ≤ 2 ^ 31)
    (hempty : ∀ e ∈ cur._childEdges, e._keywords = []) :
    edgeLoop message cur (GetNumberOfChildEdges cur) 0 [] = some [] ∧
    ReceiveMessageFromUser sort h self message rnd
      = MoveChatbotToNewNode h c self._rootNode rnd ∧
    (∀ h', ReceiveMessageFromUser sort h self message rnd = .ok h' →
      ∃ r n, self._rootNode = some r ∧ h'.nodes[r]? = some n ∧
        n._chatBot = { cur._chatBot with _currentNode := some r }) ∧
    (∀ (r l : Nat) (nr : GraphNode) (cl : ChatLogic), self._rootNode = some r →
      h.nodes[r]? = some nr → cur._chatBot._chatLogic = some l → h.logics[l]? = some cl →
      1 ≤ nr._answers.length → nr._answers.length ≤ 2 ^ 31 →
      ∃ h', ReceiveMessageFromUser sort h self message rnd = .ok h') := by
  have hnil := candidates_eq_nil message cur._childEdges hempty 0
  have hloop := edgeLoop_candidates message cur (by omega)
  rw [hnil] at hloop
  have hsel := selectNewNode_of_nil sort cur self._rootNode message (by omega) hnil
  have hrec := ReceiveMessageFromUser_of_select sort h self message rnd c cur _ hc hcur hsel
  obtain ⟨hpost, htotal⟩ := MoveChatbotToNewNode_migrates h c rnd cur self._rootNode hcur
  refine ⟨hloop, hrec, ?_, ?_⟩
  · intro h' hok
    rw [hrec] at hok
    exact hpost h' hok
  · intro r l nr cl hr hnr hl hcl h1 h2
    rw [hrec]
    exact htotal r l nr cl hr hnr hl hcl h1 h2

/-- C4, amended, on the example graph: from node 1, which has no outgoing edge, the
message "x" brings the session back to the root. -/
theorem ReceiveMessageFromUser_falls_back_to_root_witness :
    ([] : List GraphEdge).length ≤ 2 ^ 31 ∧
    (∀ e ∈ ([] : List GraphEdge), e._keywords = []) ∧
    ReceiveMessageFromUser std_sort exampleHeapAfterHai (sessionAtNode 1) "x".toList 1
      = MoveChatbotToNewNode exampleHeapAfterHai 1 (some 0) 1 ∧
    ∃ h', ReceiveMessageFromUser std_sort exampleHeapAfterHai (sessionAtNode 1) "x".toList 1
      = .ok h' := by
  have hw := ReceiveMessageFromUser_falls_back_to_root std_sort exampleHeapAfterHai
    (sessionAtNode 1) "x".toList 1 1
    { _childEdges := [], _chatBot := sessionAtNode 1, _id := 1,
      _answers := ["Hello".toList, "Hi there".toList] } rfl rfl (by decide)
    (fun e he => absurd he (List.not_mem_nil e))
  exact ⟨by decide, fun e he => absurd he (List.not_mem_nil e), hw.2.1,
    hw.2.2.2 0 0 _ _ rfl rfl rfl rfl (by decide) (by decide)⟩

/-! ## `std::sort` on short vectors -/

theorem rd_eq (v : List EdgeDist) (i : Nat) : rd v i = v[i]?.getD (0, 0) := by
  unfold rd
  rw [List.getD_eq_getElem?_getD]

theorem rd_congr (v w : List EdgeDist) (i j : Nat) (h : v[i]? = w[j]?) : rd v i = rd w j := by
  rw [rd_eq, rd_eq, h]

theorem move_backward_length (first : Nat) :
    ∀ (n : Nat) (v : List EdgeDist), (move_backward first n v).length = v.length := by
  intro n
  induction n with
  | zero => intro v; rfl
  | succ n ih => intro v; simp [move_backward, ih]

theorem move_backward_get_outside (first : Nat) :
    ∀ (n : Nat) (v : List EdgeDist) (j : Nat), (j ≤ first ∨ first + n < j) →
      (move_backward first n v)[j]? = v[j]? := by
  intro n
  induction n with
  | zero => intro v j _; rfl
  | succ n ih =>
    intro v j hj
    simp only [move_backward]
    rw [ih _ j (by omega), List.getElem?_set_ne (by omega)]

theorem linear_insert_loop_length (val : EdgeDist) :
    ∀ (last : Nat) (v : List EdgeDist),
      (unguarded_linear_insert_loop val last v).length = v.length := by
  intro last
  induction last with
  | zero => intro v; simp [unguarded_linear_insert_loop]
  | succ n ih =>
    intro v
    simp only [unguarded_linear_insert_loop]
    split
    · rw [ih]; simp
    · simp

theorem linear_insert_loop_get_above (val : EdgeDist) :
    ∀ (last : Nat) (v : List EdgeDist) (j : Nat), last < j →
      (unguarded_linear_insert_loop val last v)[j]? = v[j]? := by
  intro last
  induction last with
  | zero =>
    intro v j hj
    simp only [unguarded_linear_insert_loop]
    rw [List.getElem?_set_ne (by omega)]
  | succ n ih =>
    intro v j hj
    simp only [unguarded_linear_insert_loop]
    split
    · rw [ih _ j (by omega), List.getElem?_set_ne (by omega)]
    · rw [List.getElem?_set_ne (by omega)]

/-- The element at the front stops the unguarded insertion: it stays where it is. -/
theorem linear_insert_loop_get_zero (val : EdgeDist) :
    ∀ (last : Nat) (v : List EdgeDist), 1 ≤ last → comp val (rd v 0) = false →
      (unguarded_linear_insert_loop val last v)[0]? = v[0]? := by
  intro last
  induction last with
  | zero => intro v h1 _; omega
  | succ n ih =>
    intro v _ hfront
    simp only [unguarded_linear_insert_loop]
    split
    · rename_i hc
      have hn : 1 ≤ n := by
        by_contra hn0
        have : n = 0 := by omega
        subst this
        rw [hfront] at hc
        exact absurd hc (by simp)
      have h0 : (v.set (n + 1) (rd v n))[0]? = v[0]? := List.getElem?_set_ne (by omega)
      rw [ih _ hn (by rw [rd_congr _ v 0 0 h0]; exact hfront), h0]
    · rw [List.getElem?_set_ne (by omega)]

/-- One round of the loop of `__insertion_sort` on the whole vector: the positions after
`i` are untouched, and the front holds the old front or, when it is strictly smaller, the
element that was at `i`. -/
theorem insertion_round (v : List EdgeDist) (i : Nat) (hi : 1 ≤ i) (hlt : i < v.length) :
    let w := if comp (rd v i) (rd v 0) then (move_backward 0 (i - 0) v).set 0 (rd v i)
             else unguarded_linear_insert v i
    w.length = v.length ∧ (∀ j, i < j → w[j]? = v[j]?) ∧
    w[0]? = some (if (rd v i).2 < (rd v 0).2 then rd v i else rd v 0) := by
  intro w
  have h0 : v[0]? = some (rd v 0) := by
    rw [rd_eq, List.getElem?_eq_getElem (by omega)]; rfl
  by_cases hc : comp (rd v i) (rd v 0) = true
  · have hw : w = (move_backward 0 (i - 0) v).set 0 (rd v i) := if_pos hc
    have hlt2 : (rd v i).2 < (rd v 0).2 := by simpa [comp] using hc
    rw [hw, if_pos hlt2]
    refine ⟨by simp [move_backward_length], fun j hj => ?_, ?_⟩
    · rw [List.getElem?_set_ne (by omega), move_backward_get_outside 0 _ v j (by omega)]
    · rw [List.getElem?_set_eq_of_lt]
      rw [move_backward_length]; omega
  · have hw : w = unguarded_linear_insert v i := if_neg hc
    have hc2 : comp (rd v i) (rd v 0) = false := by simpa using hc
    have hlt2 : ¬ (rd v i).2 < (rd v 0).2 := by simpa [comp] using hc2
    rw [hw, if_neg hlt2]
    unfold unguarded_linear_insert
    refine ⟨linear_insert_loop_length _ _ _, fun j hj => ?_, ?_⟩
    · exact linear_insert_loop_get_above _ _ _ j hj
    · rw [linear_insert_loop_get_zero _ _ _ hi hc2, h0]

theorem firstLeast_singleton (a : EdgeDist) : FirstLeast [a] a :=
  ⟨[], [], rfl, by simp, by simp⟩

theorem firstLeast_snoc (l : List EdgeDist) (m y : EdgeDist) (h : FirstLeast l m) :
    FirstLeast (l ++ [y]) (if y.2 < m.2 then y else m) := by
  obtain ⟨before, after, hl, hb, ha⟩ := h
  by_cases hy : y.2 < m.2
  · rw [if_pos hy]
    refine ⟨l, [], rfl, fun p hp => ?_, by simp⟩
    rw [hl] at hp
    rcases List.mem_append.mp hp with hp1 | hp2
    · exact lt_trans hy (hb p hp1)
    · rcases List.mem_cons.mp hp2 with rfl | hp3
      · exact hy
      · exact lt_of_lt_of_le hy (ha p hp3)
  · rw [if_neg hy]
    refine ⟨before, after ++ [y], by rw [hl]; simp, hb, fun p hp => ?_⟩
    rcases List.mem_append.mp hp with hp1 | hp2
    · exact ha p hp1
    · have : p = y := by simpa using hp2
      subst this
      exact not_lt.mp hy

theorem firstLeast_unique (l : List EdgeDist) (x y : EdgeDist) (hx : FirstLeast l x)
    (hy : FirstLeast l y) : x = y := by
  obtain ⟨b1, a1, h1, hb1, ha1⟩ := hx
  obtain ⟨b2, a2, h2, hb2, ha2⟩ := hy
  rw [h1] at h2
  rcases List.append_eq_append_iff.mp h2 with ⟨c, hc1, hc2⟩ | ⟨c, hc1, hc2⟩
  · cases c with
    | nil =>
      simp only [List.nil_append] at hc2
      injection hc2 with hxy _
    | cons z c =>
      simp only [List.cons_append] at hc2
      injection hc2 with hz hrest
      subst hz
      have h3 : y.2 < x.2 := hb2 x (by rw [hc1]; simp)
      have h4 : x.2 ≤ y.2 := ha1 y (by rw [hrest]; simp)
      omega
  · cases c with
    | nil =>
      simp only [List.nil_append] at hc2
      injection hc2 with hxy _
      exact hxy.symm
    | cons z c =>
      simp only [List.cons_append] at hc2
      injection hc2 with hz hrest
      subst hz
      have h3 : x.2 < y.2 := hb1 y (by rw [hc1]; simp)
      have h4 : y.2 ≤ x.2 := ha2 x (by rw [hrest]; simp)
      omega

theorem insertion_sort_loop_front (v0 : List EdgeDist) :
    ∀ (r i : Nat) (a : List EdgeDist), 1 ≤ i → i + r = v0.length → a.length = v0.length →
      (∀ j, i ≤ j → a[j]? = v0[j]?) →
      (∃ m, a[0]? = some m ∧ FirstLeast (v0.take i) m) →
      ∃ m, (insertion_sort_loop 0 r i a)[0]? = some m ∧ FirstLeast v0 m := by
  intro r
  induction r with
  | zero =>
    intro i a _ hir _ _ hfront
    obtain ⟨m, hm, hfl⟩ := hfront
    refine ⟨m, hm, ?_⟩
    rw [List.take_of_length_le (by omega)] at hfl
    exact hfl
  | succ r ih =>
    intro i a hi hir hlen hrest hfront
    obtain ⟨m, hm, hfl⟩ := hfront
    have hilt : i < a.length := by omega
    obtain ⟨hwlen, hwrest, hwfront⟩ := insertion_round a i hi hilt
    simp only [insertion_sort_loop]
    have hrd0 : rd a 0 = m := by rw [rd_eq, hm]; rfl
    have hvi : v0[i]? = some (rd a i) := by
      rw [← hrest i le_rfl, rd_eq, List.getElem?_eq_getElem hilt]; rfl
    apply ih (i + 1) _ (by omega) (by omega) (by rw [hwlen, hlen])
    · intro j hj
      rw [hwrest j (by omega)]
      exact hrest j (by omega)
    · refine ⟨_, hwfront, ?_⟩
      rw [hrd0]
      have htake : v0.take (i + 1) = v0.take i ++ [rd a i] := by
        rw [List.take_succ, hvi]; rfl
      rw [htake]
      exact firstLeast_snoc _ _ _ hfl

theorem introsort_loop_short (depth : Nat) (v : List EdgeDist) (first last : Nat)
    (h : last - first ≤ 16) : introsort_loop depth v first last = v := by
  cases depth with
  | zero => simp only [introsort_loop]; rw [if_neg (by omega)]
  | succ d => simp only [introsort_loop]; rw [if_neg (by omega)]

/-- On a vector of at most 16 pairs the GNU `std::sort` is the insertion sort alone, and
it brings to the front the first of the pairs of least distance. -/
theorem std_sort_front_of_short (v : List EdgeDist) (x : EdgeDist) (hlen : v.length ≤ 16)
    (hx : FirstLeast v x) : (std_sort v)[0]? = some x := by
  have hpos : 0 < v.length := by
    obtain ⟨before, after, hv, _, _⟩ := hx
    rw [hv]; simp
  unfold std_sort
  rw [if_neg (by omega), introsort_loop_short _ _ _ _ (by omega)]
  unfold final_insertion_sort
  rw [if_neg (by omega)]
  unfold insertion_sort
  rw [if_neg (by omega)]
  have h0 : v[0]? = some (v[0]) := List.getElem?_eq_getElem hpos
  obtain ⟨m, hm, hfl⟩ := insertion_sort_loop_front v (v.length - (0 + 1)) (0 + 1) v (by omega)
    (by omega) rfl (fun _ _ => rfl)
    ⟨v[0], h0, by
      have : v.take (0 + 1) = [v[0]] := by
        rw [List.take_succ, h0]; rfl
      rw [this]
      exact firstLeast_singleton _⟩
  rw [hm, firstLeast_unique v m x hfl hx]

theorem candidates_edges_ascending (message : CxxString) (edges : List GraphEdge) :
    ∀ i, (∀ p ∈ candidates message edges i, i ≤ p.1) ∧
      (candidates message edges i).Pairwise (fun a b => a.1 ≤ b.1) := by
  induction edges with
  | nil => intro i; simp [candidates]
  | cons e rest ih =>
    intro i
    obtain ⟨hge, hpw⟩ := ih (i + 1)
    simp only [candidates]
    constructor
    · intro p hp
      rcases List.mem_append.mp hp with hp1 | hp2
      · obtain ⟨kw, _, rfl⟩ := List.mem_map.mp hp1
        exact le_rfl
      · have := hge p hp2
        omega
    · rw [List.pairwise_append]
      refine ⟨?_, hpw, ?_⟩
      · rw [List.pairwise_map]
        exact List.pairwise_of_forall (fun _ _ => le_rfl)
      · intro a ha b hb
        obtain ⟨kw, _, rfl⟩ := List.mem_map.mp ha
        have := hge b hb
        simp only
        omega

set_option maxRecDepth 100000 in
/-- C5, as stated, fails on a node that yields 17 pairs: all 17 keywords are at distance 0
from the message, the pair encountered first belongs to the first edge, whose target is
node 1, but the GNU `std::sort` brings the pair of the ninth edge to the front and the
session migrates to node 9. -/
theorem ReceiveMessageFromUser_tie_of_seventeen :
    FirstLeast (candidates "a".toList tieNode._childEdges 0) (0, 0) ∧
    tieNode._childEdges[0]? = some { _keywords := ["a".toList], _childNode := some 1 } ∧
    ReceiveMessageFromUser std_sort tieHeap (sessionAtNode 0) "a".toList 0
      = MoveChatbotToNewNode tieHeap 0 (some 9) 0 ∧
    ∃ h', ReceiveMessageFromUser std_sort tieHeap (sessionAtNode 0) "a".toList 0 = .ok h' ∧
      (∃ n, h'.nodes[9]? = some n ∧ holdsSession n) ∧
      (∃ n, h'.nodes[1]? = some n ∧ ¬ holdsSession n) := by
  refine ⟨⟨[], (List.range 16).map (fun i => (i + 1, 0)), by decide, by simp, ?_⟩, by decide,
    by decide, ?_⟩
  · intro p hp
    obtain ⟨i, _, rfl⟩ := List.mem_map.mp hp
    exact le_rfl
  · rcases hrun : ReceiveMessageFromUser std_sort tieHeap (sessionAtNode 0) "a".toList 0
      with h' | h' | _
    · have h9 : (h'.nodes[9]?).map (fun n => decide (holdsSession n)) = some true := by
        have : (match ReceiveMessageFromUser std_sort tieHeap (sessionAtNode 0) "a".toList 0
            with
            | .ok h2 => (h2.nodes[9]?).map (fun n => decide (holdsSession n))
            | _ => none) = some true := by decide
        rw [hrun] at this
        exact this
      have h1 : (h'.nodes[1]?).map (fun n => decide (holdsSession n)) = some false := by
        have : (match ReceiveMessageFromUser std_sort tieHeap (sessionAtNode 0) "a".toList 0
            with
            | .ok h2 => (h2.nodes[1]?).map (fun n => decide (holdsSession n))
            | _ => none) = some false := by decide
        rw [hrun] at this
        exact this
      refine ⟨h', rfl, ?_, ?_⟩
      · rcases hn : h'.nodes[9]? with _ | n
        · rw [hn] at h9; simp at h9
        · rw [hn] at h9
          exact ⟨n, rfl, by simpa using h9⟩
      · rcases hn : h'.nodes[1]? with _ | n
        · rw [hn] at h1; simp at h1
        · rw [hn] at h1
          exact ⟨n, rfl, by simpa using h1⟩
    · have : (match ReceiveMessageFromUser std_sort tieHeap (sessionAtNode 0) "a".toList 0
          with
          | .ok _ => true
          | _ => false) = true := by decide
      rw [hrun] at this
      exact absurd this (by simp)
    · have : (match ReceiveMessageFromUser std_sort tieHeap (sessionAtNode 0) "a".toList 0
          with
          | .ok _ => true
          | _ => false) = true := by decide
      rw [hrun] at this
      exact absurd this (by simp)

/-! ## Pairs of equal distance -/

theorem exists_firstLeast (l : List EdgeDist) (hl : l ≠ []) : ∃ x, FirstLeast l x := by
  induction l using List.reverseRecOn with
  | nil => exact absurd rfl hl
  | append_singleton l y ih =>
    cases l with
    | nil => exact ⟨y, firstLeast_singleton y⟩
    | cons z zs =>
      obtain ⟨m, hm⟩ := ih (List.cons_ne_nil z zs)
      exact ⟨_, firstLeast_snoc _ m y hm⟩

theorem firstLeast_least (l : List EdgeDist) (x : EdgeDist) (hx : FirstLeast l x) :
    x ∈ l ∧ ∀ p ∈ l, x.2 ≤ p.2 := by
  obtain ⟨before, after, hl, hb, ha⟩ := hx
  refine ⟨by rw [hl]; simp, fun p hp => ?_⟩
  rw [hl] at hp
  rcases List.mem_append.mp hp with h1 | h2
  · exact le_of_lt (hb p h1)
  · rcases List.mem_cons.mp h2 with rfl | h3
    · exact le_rfl
    · exact ha p h3

/-- With the `std::sort` of the GNU library and at most 16 (edge, keyword) pairs, the
pair brought to the front is a pair of the node of least distance, without any
assumption on the sort. -/
theorem std_sort_front_least_of_short (message : CxxString) (cur : GraphNode)
    (hedges : cur._childEdges.length ≤ 2 ^ 31)
    (hne : candidates message cur._childEdges 0 ≠ [])
    (hlen : (candidates message cur._childEdges 0).length ≤ 16) :
    ∃ (i : Nat) (e : GraphEdge) (kw : CxxString),
      (std_sort (candidates message cur._childEdges 0))[0]?
        = some (i, ComputeLevenshteinDistance kw message) ∧
      cur._childEdges[i]? = some e ∧ kw ∈ e._keywords ∧
      (∀ e2 ∈ cur._childEdges, ∀ kw2 ∈ e2._keywords,
        ComputeLevenshteinDistance kw message ≤ ComputeLevenshteinDistance kw2 message) ∧
      ∀ rootNode, selectNewNode std_sort cur rootNode message = some e._childNode := by
  obtain ⟨x, hx⟩ := exists_firstLeast _ hne
  have hfront := std_sort_front_of_short _ x hlen hx
  obtain ⟨hmem, hmin⟩ := firstLeast_least _ x hx
  obtain ⟨j, e, kw, hj, hkw, hxe⟩ := (mem_candidates message cur._childEdges 0 x).mp hmem
  rw [hxe] at hfront hmin
  simp only [Nat.zero_add] at hfront hmin
  refine ⟨j, e, kw, hfront, hj, hkw, ?_, fun rootNode =>
    selectNewNode_of_head std_sort cur rootNode message _ e hedges hne hfront hj⟩
  intro e2 he2 kw2 hkw2
  obtain ⟨j2, hj2⟩ := List.mem_iff_getElem?.mp he2
  exact hmin _ ((mem_candidates message cur._childEdges 0 _).mpr ⟨j2, e2, kw2, hj2, hkw2, rfl⟩)

/-- C5, amended: let `x` be the pair encountered first among those of least distance, for
a node with at most `2^31` edges, a message and keywords shorter than `2^31`, and a
`std::sort` that has put the pairs in ascending order.  The pair chosen has the distance
of `x`, which is the least number of edits over all pairs of the node, and
`ReceiveMessageFromUser` is the migration to the target of the edge of the chosen pair;
it is the migration to the target of the edge of `x` whenever every pair at that
distance belongs to an edge with that same target.  Which of several pairs at the least
distance is chosen is left to the sort routine: on the example graph, where "hi" and
"bye" are both at distance 2 from "b", a routine that keeps the order of equal pairs
sends the session to node 1 and one that reverses it sends the session to node 2. -/
theorem ReceiveMessageFromUser_tie_goes_to_a_least_pair :
    (∀ (sort : List EdgeDist → List EdgeDist) (h : Heap) (self : ChatBot)
      (message : CxxString) (rnd c : Nat) (cur : GraphNode) (x : EdgeDist),
      self._currentNode = some c → h.nodes[c]? = some cur →
      cur._childEdges.length ≤ 2 ^ 31 → message.length < 2 ^ 31 →
      (∀ e ∈ cur._childEdges, ∀ kw ∈ e._keywords, kw.length < 2 ^ 31) →
      FirstLeast (candidates message cur._childEdges 0) x →
      (sort (candidates message cur._childEdges 0)).Perm (candidates message cur._childEdges 0) →
      (sort (candidates message cur._childEdges 0)).Pairwise (fun a b => ¬ b.2 < a.2) →
      ∃ (i : Nat) (e ex : GraphEdge) (kw : CxxString) (d : Nat),
        (sort (candidates message cur._childEdges 0))[0]?
          = some (i, ComputeLevenshteinDistance kw message) ∧
        cur._childEdges[i]? = some e ∧ kw ∈ e._keywords ∧
        cur._childEdges[x.1]? = some ex ∧
        ComputeLevenshteinDistance kw message = x.2 ∧ x.2 = (d : Int) ∧
        IsLeast {n | EditsIn n (kw.map toupper) (message.map toupper)} d ∧
        (∀ e2 ∈ cur._childEdges, ∀ kw2 ∈ e2._keywords, ∀ d2 : Nat,
          IsLeast {n | EditsIn n (kw2.map toupper) (message.map toupper)} d2 → d ≤ d2) ∧
        ReceiveMessageFromUser sort h self message rnd
          = MoveChatbotToNewNode h c e._childNode rnd ∧
        ((∀ e2 ∈ cur._childEdges, ∀ kw2 ∈ e2._keywords,
            ComputeLevenshteinDistance kw2 message = x.2 → e2._childNode = ex._childNode) →
          ReceiveMessageFromUser sort h self message rnd
            = MoveChatbotToNewNode h c ex._childNode rnd)) ∧
    (candidates "b".toList
        [ { _keywords := ["hi".toList], _childNode := some 1 },
          { _keywords := ["bye".toList], _childNode := some 2 } ] 0 = [(0, 2), (1, 2)] ∧
      (sortKeepingOrder [(0, 2), (1, 2)]).Perm [(0, 2), (1, 2)] ∧
      (sortKeepingOrder [(0, 2), (1, 2)]).Pairwise (fun a b => ¬ b.2 < a.2) ∧
      ReceiveMessageFromUser sortKeepingOrder exampleHeap (sessionAtNode 0) "b".toList 3
        = MoveChatbotToNewNode exampleHeap 0 (some 1) 3 ∧
      (sortReversingOrder [(0, 2), (1, 2)]).Perm [(0, 2), (1, 2)] ∧
      (sortReversingOrder [(0, 2), (1, 2)]).Pairwise (fun a b => ¬ b.2 < a.2) ∧
      ReceiveMessageFromUser sortReversingOrder exampleHeap (sessionAtNode 0) "b".toList 3
        = MoveChatbotToNewNode exampleHeap 0 (some 2) 3) := by
  refine ⟨?_, by decide, by decide, by decide, by decide, by decide, by decide, by decide⟩
  intro sort h self message rnd c cur x hc hcur hedges hmsg hkws hx hperm hasc
  obtain ⟨hxmem, hxmin⟩ := firstLeast_least _ x hx
  have hne : candidates message cur._childEdges 0 ≠ [] := List.ne_nil_of_mem hxmem
  obtain ⟨i, e, kw, hhead, hi, hkw, hval, hmin, hminlev, hrec⟩ :=
    ReceiveMessageFromUser_front sort h self message rnd c cur hc hcur hedges hmsg hkws hne
      hperm hasc
  obtain ⟨jx, ex, kwx, hjx, hkwx, hxe⟩ := (mem_candidates message cur._childEdges 0 x).mp hxmem
  have hx1 : x.1 = jx := by rw [hxe]; simp
  have hx2 : x.2 = ComputeLevenshteinDistance kwx message := by rw [hxe]
  have hmemhead : (i, ComputeLevenshteinDistance kw message)
      ∈ candidates message cur._childEdges 0 :=
    (mem_candidates message cur._childEdges 0 _).mpr ⟨i, e, kw, hi, hkw, by simp⟩
  have hsame : ComputeLevenshteinDistance kw message = x.2 := by
    have h1 := hxmin _ hmemhead
    have h2 := hmin ex (List.getElem?_mem hjx) kwx hkwx
    rw [← hx2] at h2
    exact le_antisymm h2 h1
  refine ⟨i, e, ex, kw, _, hhead, hi, hkw, by rw [hx1]; exact hjx, hsame,
    by rw [← hsame, hval], lev_isLeast _ _, ?_, hrec, ?_⟩
  · intro e2 he2 kw2 hkw2 d2 hd2
    rw [isLeast_editsIn_eq_lev _ _ d2 hd2]
    exact hminlev e2 he2 kw2 hkw2
  · intro hall
    rw [hrec, hall e (List.getElem?_mem hi) kw hkw hsame]

/-- C5, amended, on the example graph with the sort routine of the GNU library: "hi" and
"bye" are both at distance 2 from "b", the pair of "hi" comes first, and the pair chosen
is at distance 2. -/
theorem ReceiveMessageFromUser_tie_goes_to_a_least_pair_witness :
    candidates "b".toList
      [ { _keywords := ["hi".toList], _childNode := some 1 },
        { _keywords := ["bye".toList], _childNode := some 2 } ] 0 = [(0, 2), (1, 2)] ∧
    FirstLeast [(0, 2), (1, 2)] (0, 2) ∧
    (std_sort [(0, 2), (1, 2)]).Perm [(0, 2), (1, 2)] ∧
    (std_sort [(0, 2), (1, 2)]).Pairwise (fun a b => ¬ b.2 < a.2) ∧
    ∃ (i : Nat) (e : GraphEdge) (kw : CxxString),
      ([ { _keywords := ["hi".toList], _childNode := some 1 },
         { _keywords := ["bye".toList], _childNode := some 2 } ] : List GraphEdge)[i]? = some e ∧
      kw ∈ e._keywords ∧ ComputeLevenshteinDistance kw "b".toList = 2 ∧
      IsLeast {n | EditsIn n (kw.map toupper) ("b".toList.map toupper)} 2 ∧
      ReceiveMessageFromUser std_sort exampleHeap (sessionAtNode 0) "b".toList 3
        = MoveChatbotToNewNode exampleHeap 0 e._childNode 3 := by
  have hfl : FirstLeast [(0, 2), (1, 2)] (0, 2) := ⟨[], [(1, 2)], rfl, by simp, by simp⟩
  refine ⟨by decide, hfl, by decide, by decide, ?_⟩
  obtain ⟨i, e, ex, kw, d, _, h2, h3, _, h5, h6, h7, _, h9, _⟩ :=
    ReceiveMessageFromUser_tie_goes_to_a_least_pair.1 std_sort exampleHeap (sessionAtNode 0)
      "b".toList 3 0
      { _childEdges := [ { _keywords := ["hi".toList], _childNode := some 1 },
                         { _keywords := ["bye".toList], _childNode := some 2 } ],
        _chatBot := sessionAtNode 0, _id := 0, _answers := ["Welcome".toList] }
      (0, 2) rfl rfl (by decide) (by decide) (by decide)
      ⟨[], [(1, 2)], by decide, by simp, by simp⟩ (by decide) (by decide)
  have hd : d = 2 := by
    have h6b : ((2 : Nat) : Int) = (d : Int) := h6
    exact_mod_cast h6b.symm
  rw [hd] at h7
  exact ⟨i, e, kw, h2, h3, h5, h7, h9⟩

/-! ## Conversations that return -/

theorem mem_set_set {α : Type} (l : List α) (i j : Nat) (a b x : α)
    (hx : x ∈ (l.set i a).set j b) : x ∈ l ∨ x = a ∨ x = b := by
  rcases List.mem_or_eq_of_mem_set hx with h1 | h1
  · rcases List.mem_or_eq_of_mem_set h1 with h2 | h2
    · exact Or.inl h2
    · exact Or.inr (Or.inl h2)
  · exact Or.inr (Or.inr h1)

/-- A migration that returns changes the session slots only: the nodes keep their edges
and answers, and the root handle travels with the session. -/
theorem MoveChatbotToNewNode_keeps_graph {h : Heap} {k t rnd : Nat} {h' : Heap}
    (hok : MoveChatbotToNewNode h k (some t) rnd = .ok h') (hg : GraphOk h)
    (hr : RootOk h k) : GraphOk h' ∧ RootOk h' t := by
  obtain ⟨nk, nt, l, cl, answer, h1, h2, h3, h4, h5, h6, h7⟩ := MoveChatbotToNewNode_ok hok
  have hklt := getElem?_lt h1
  have htlt := getElem?_lt h2
  have hlen : h'.nodes.length = h.nodes.length := by rw [h6]; simp
  have hnk : nk ∈ h.nodes := List.getElem?_mem h1
  have hnt : nt ∈ h.nodes ∨ nt = { nk with _chatBot := ⟨none, none, none, none⟩ } :=
    List.mem_or_eq_of_mem_set (List.getElem?_mem h2)
  have hkeep : ∀ n ∈ h'.nodes, ∃ n0 ∈ h.nodes,
      n._childEdges = n0._childEdges ∧ n._answers = n0._answers := by
    intro n hn
    rw [h6] at hn
    rcases mem_set_set _ _ _ _ _ _ hn with hn1 | hn1 | hn1
    · exact ⟨n, hn1, rfl, rfl⟩
    · exact ⟨nk, hnk, by rw [hn1], by rw [hn1]⟩
    · rcases hnt with hnt1 | hnt1
      · exact ⟨nt, hnt1, by rw [hn1], by rw [hn1]⟩
      · exact ⟨nk, hnk, by rw [hn1, hnt1], by rw [hn1, hnt1]⟩
  refine ⟨⟨fun n hn e he => ?_, fun n hn => ?_, fun n hn => ?_⟩, ?_⟩
  · obtain ⟨n0, hn0, he0, _⟩ := hkeep n hn
    rw [hlen]
    exact hg.1 n0 hn0 e (by rw [← he0]; exact he)
  · obtain ⟨n0, hn0, _, ha0⟩ := hkeep n hn
    rw [ha0]
    exact hg.2.1 n0 hn0
  · obtain ⟨n0, hn0, he0, _⟩ := hkeep n hn
    rw [he0]
    exact hg.2.2 n0 hn0
  · obtain ⟨nk2, r, hnk2, hroot, hrlt⟩ := hr
    rw [h1] at hnk2
    injection hnk2 with hnk2
    subst hnk2
    refine ⟨{ nt with _chatBot := { nk._chatBot with _currentNode := some t } }, r, ?_, hroot,
      by rw [hlen]; exact hrlt⟩
    rw [h6, List.getElem?_set_eq_of_lt _ htlt]

/-- In a graph fit for a conversation every delivered message returns, and the graph is
again fit for a conversation. -/
theorem SendMessageToChatbot_returns {sort : List EdgeDist → List EdgeDist} {h : Heap}
    {l k : Nat} (message : CxxString) (rnd : Nat) (hsort : SortKeeps sort)
    (hs : SessionAt h l k) (hg : GraphOk h) (hr : RootOk h k) :
    ∃ h' k', SendMessageToChatbot sort h l message rnd = .ok h' ∧
      SessionAt h' l k' ∧ GraphOk h' ∧ RootOk h' k' := by
  obtain ⟨⟨nk, hnk, hcur, hlog, hroot⟩, ⟨cl, hcl, hhandle⟩, hothers⟩ := hs
  obtain ⟨nk2, r, hnk2, hrootr, hrlt⟩ := hr
  rw [hnk] at hnk2
  injection hnk2 with hnk2
  subst hnk2
  have hnkmem : nk ∈ h.nodes := List.getElem?_mem hnk
  have hedges : nk._childEdges.length ≤ 2 ^ 31 := hg.2.2 nk hnkmem
  -- the node chosen exists
  have hsel : ∃ t, selectNewNode sort nk nk._chatBot._rootNode message = some (some t) ∧
      t < h.nodes.length := by
    by_cases hnil : candidates message nk._childEdges 0 = []
    · exact ⟨r, by rw [selectNewNode_of_nil sort nk _ message hedges hnil, hrootr], hrlt⟩
    · obtain ⟨x, hx, hfront⟩ := hsort _ hnil
      obtain ⟨j, e, kw, hj, _, hxe⟩ := (mem_candidates message nk._childEdges 0 x).mp hx
      have hx1 : x.1 = j := by rw [hxe]; simp
      obtain ⟨t, ht, htlt⟩ := hg.1 nk hnkmem e (List.getElem?_mem hj)
      refine ⟨t, ?_, htlt⟩
      rw [selectNewNode_of_head sort nk _ message x e hedges hnil hfront (by rw [hx1]; exact hj), ht]
  obtain ⟨t, hselt, htlt⟩ := hsel
  have hstep : SendMessageToChatbot sort h l message rnd
      = MoveChatbotToNewNode h k (some t) rnd := by
    simp only [SendMessageToChatbot, hcl, hhandle, hnk]
    exact ReceiveMessageFromUser_of_select sort h nk._chatBot message rnd k nk _ hcur hnk hselt
  have hnt : h.nodes[t]? = some (h.nodes[t]) := List.getElem?_eq_getElem htlt
  have hans := hg.2.1 _ (List.getElem?_mem hnt)
  obtain ⟨h', hok⟩ := @MoveChatbotToNewNode_returns h k t rnd l nk _ cl hnk hnt hlog hcl
    hans.1 hans.2
  have hs : SessionAt h l k := ⟨⟨nk, hnk, hcur, hlog, hroot⟩, ⟨cl, hcl, hhandle⟩, hothers⟩
  rw [← hstep] at hok
  obtain ⟨k', hs', _⟩ := SendMessageToChatbot_SessionAt hs hok
  rw [hstep] at hok
  obtain ⟨hg', hr'⟩ := MoveChatbotToNewNode_keeps_graph hok hg ⟨nk, r, hnk, hrootr, hrlt⟩
  -- the session sits in the node chosen
  have hkt : k' = t := by
    obtain ⟨nk3, nt3, l3, cl3, answer, g1, g2, g3, g4, g5, g6, g7⟩ := MoveChatbotToNewNode_ok hok
    obtain ⟨⟨n', hn', _, hlog', hroot'⟩, _, hothers'⟩ := hs'
    by_contra hne
    have htn : h'.nodes[t]? = some { nt3 with _chatBot := { nk3._chatBot with _currentNode := some t } } := by
      rw [g6, List.getElem?_set_eq_of_lt _ (getElem?_lt g2)]
    rw [hnk] at g1
    injection g1 with g1
    subst g1
    refine hothers' t _ htn (fun h0 => hne h0.symm) ⟨?_, ?_⟩
    · simp [hlog]
    · exact hroot
  subst hkt
  rw [← hstep] at hok
  exact ⟨h', k', hok, hs', hg', hr'⟩

theorem runMessages_returns {sort : List EdgeDist → List EdgeDist} {l : Nat}
    (hsort : SortKeeps sort) :
    ∀ (inputs : List (CxxString × Nat)) {h : Heap} {k : Nat},
      SessionAt h l k → GraphOk h → RootOk h k →
      ∃ h', runMessages sort l h inputs = .ok h' := by
  intro inputs
  induction inputs with
  | nil => intro h k _ _ _; exact ⟨h, rfl⟩
  | cons x rest ih =>
    intro h k hs hg hr
    obtain ⟨message, rnd⟩ := x
    obtain ⟨h1, k1, hok, hs1, hg1, hr1⟩ := SendMessageToChatbot_returns message rnd hsort hs hg hr
    obtain ⟨h', hrun⟩ := ih hs1 hg1 hr1
    refine ⟨h', ?_⟩
    simp only [runMessages, hok, Outcome.andThen]
    exact hrun

theorem sortKeeps_of_perm (sort : List EdgeDist → List EdgeDist)
    (hperm : ∀ v, (sort v).Perm v) : SortKeeps sort := by
  intro v hv
  have hlen : 0 < (sort v).length := by
    rw [(hperm v).length_eq]; exact List.length_pos.mpr hv
  exact ⟨(sort v)[0], (hperm v).subset (List.getElem_mem _), List.getElem?_eq_getElem hlen⟩

theorem GraphOk_exampleHeap : GraphOk exampleHeap := by
  constructor
  · intro n hn e he
    simp only [exampleHeap, List.mem_cons, List.mem_singleton, List.not_mem_nil, or_false] at hn
    rcases hn with rfl | rfl | rfl
    · simp only [List.mem_cons, List.mem_singleton, List.not_mem_nil, or_false] at he
      rcases he with rfl | rfl
      · exact ⟨1, rfl, by decide⟩
      · exact ⟨2, rfl, by decide⟩
    · exact absurd he (List.not_mem_nil e)
    · exact absurd he (List.not_mem_nil e)
  constructor
  · intro n hn
    simp only [exampleHeap, List.mem_cons, List.mem_singleton, List.not_mem_nil, or_false] at hn
    rcases hn with rfl | rfl | rfl <;> decide
  · intro n hn
    simp only [exampleHeap, List.mem_cons, List.mem_singleton, List.not_mem_nil, or_false] at hn
    rcases hn with rfl | rfl | rfl <;> decide

/-- C3: from a heap in which the session is attached to one node, every sequence of
delivered messages that returns leaves exactly one node holding the session, the session
still attached to it; whenever a further message moves the session to a different node,
the slot of the node it left is empty (all four handles null).  And every sequence does
return when each edge leads to a node, each node has between 1 and `2^31` answers and at
most `2^31` edges, the root handle names a node and `std::sort` keeps the elements of the
vector. -/
theorem session_held_by_exactly_one_node :
    (∀ (sort : List EdgeDist → List EdgeDist) (l k : Nat) (h h' : Heap)
      (inputs : List (CxxString × Nat)), SessionAt h l k →
      runMessages sort l h inputs = .ok h' →
      (∃! j : Nat, ∃ n, h'.nodes[j]? = some n ∧ holdsSession n) ∧
      ∃ k', SessionAt h' l k' ∧
        ∀ (message : CxxString) (rnd : Nat) (h2 : Heap),
          SendMessageToChatbot sort h' l message rnd = .ok h2 →
          ∃ k2, SessionAt h2 l k2 ∧
            (k2 ≠ k' → ∃ n, h2.nodes[k']? = some n ∧ emptySlot n)) ∧
    (∀ (sort : List EdgeDist → List EdgeDist) (l k : Nat) (h : Heap)
      (inputs : List (CxxString × Nat)), SessionAt h l k → GraphOk h → RootOk h k →
      SortKeeps sort → ∃ h', runMessages sort l h inputs = .ok h') := by
  constructor
  · intro sort l k h h' inputs hs hrun
    obtain ⟨k', hs'⟩ := runMessages_SessionAt inputs hs hrun
    exact ⟨SessionAt_unique hs', k', hs', fun message rnd h2 hok =>
      SendMessageToChatbot_SessionAt hs' hok⟩
  · intro sort l k h inputs hs hg hr hsort
    exact runMessages_returns hsort inputs hs hg hr

/-- C3, on the example graph: "hai" moves the session to node 1 and "x" back to the
root; the run returns, and exactly one node of the heap it reaches holds the session.
The example graph also meets the conditions under which every run returns. -/
theorem session_held_by_exactly_one_node_witness :
    SessionAt exampleHeap 0 0 ∧
    runMessages std_sort 0 exampleHeap [("hai".toList, 5), ("x".toList, 1)]
      = .ok { exampleHeap with
              logics := [ { _chatBot := some 0, sent := ["Hi there".toList, "Welcome".toList] } ] } ∧
    (∃! j : Nat, ∃ n,
      ({ exampleHeap with
          logics := [ { _chatBot := some 0, sent := ["Hi there".toList, "Welcome".toList] } ] }
        : Heap).nodes[j]? = some n ∧ holdsSession n) ∧
    GraphOk exampleHeap ∧ RootOk exampleHeap 0 ∧
    SortKeeps (List.insertionSort (fun a b => a.2 ≤ b.2)) ∧
    ∃ h', runMessages (List.insertionSort (fun a b => a.2 ≤ b.2)) 0 exampleHeap
      [("hai".toList, 5), ("x".toList, 1)] = .ok h' :=
  have hsort : SortKeeps (List.insertionSort (fun a b => a.2 ≤ b.2)) :=
    sortKeeps_of_perm _ (fun v => List.perm_insertionSort _ v)
  have hroot : RootOk exampleHeap 0 := ⟨_, 0, rfl, rfl, by decide⟩
  ⟨SessionAt_exampleHeap, by decide,
    (session_held_by_exactly_one_node.1 std_sort 0 0 exampleHeap _
      [("hai".toList, 5), ("x".toList, 1)] SessionAt_exampleHeap (by decide)).1,
    GraphOk_exampleHeap, hroot, hsort,
    session_held_by_exactly_one_node.2 _ 0 0 exampleHeap _ SessionAt_exampleHeap
      GraphOk_exampleHeap hroot hsort⟩

/-! ## Values of `ComputeLevenshteinDistance` -/

theorem lev_eq_zero (a b : List Char) : lev a b = 0 → a = b := by
  induction a, b using lev.induct with
  | case1 ys =>
    intro h
    rw [lev_nil_left] at h
    exact (List.length_eq_zero.mp h).symm
  | case2 x xs =>
    intro h
    rw [lev_nil_right] at h
    simp at h
  | case3 xs y ys ih =>
    intro h
    rw [lev_cons_same] at h
    rw [ih h]
  | case4 x xs y ys hxy ih1 ih2 ih3 =>
    intro h
    rw [lev_cons_cons, if_neg hxy] at h
    omega

/-- The recurrence moves the length by at most its value. -/
theorem lev_length_bounds (a b : List Char) :
    a.length ≤ b.length + lev a b ∧ b.length ≤ a.length + lev a b := by
  induction a, b using lev.induct with
  | case1 ys => simp [lev_nil_left]
  | case2 x xs => simp [lev_nil_right]
  | case3 xs y ys ih =>
    rw [lev_cons_same]
    simp only [List.length_cons]
    omega
  | case4 x xs y ys hxy ih1 ih2 ih3 =>
    rw [lev_cons_cons, if_neg hxy]
    simp only [List.length_cons] at ih1 ih2 ih3 ⊢
    rcases min_choice (lev (x :: xs) ys) (min (lev xs (y :: ys)) (lev xs ys)) with h | h
    · rw [h]; omega
    · rw [h]
      rcases min_choice (lev xs (y :: ys)) (lev xs ys) with h2 | h2
      · rw [h2]; omega
      · rw [h2]; omega

theorem levenshteinCost_nil_left (s : List Char) : levenshteinCost [] s = s.length := by
  simp [levenshteinCost]

theorem levenshteinCost_nil_right (s : List Char) : levenshteinCost s [] = s.length := by
  unfold levenshteinCost
  simp only [List.length_map, List.map_nil, List.length_nil]
  by_cases h : s.length = 0
  · rw [if_pos h, h]
  · rw [if_neg h, if_pos trivial]

theorem toInt_eq_zero_iff (x : Nat) (h : x < 2 ^ 32) : toInt x = 0 ↔ x = 0 := by
  unfold toInt
  have h1 : x % 2 ^ 32 = x := Nat.mod_eq_of_lt h
  rw [h1]
  split <;> omega

theorem levenshteinCost_self (s : List Char) (hs : s.length < 2 ^ 63) :
    levenshteinCost s s = 0 := by
  rw [levenshteinCost_eq_lev s s hs hs, lev_self]

theorem levenshteinCost_eq_zero_iff (a b : List Char) (ha : a.length < 2 ^ 63)
    (hb : b.length < 2 ^ 63) :
    levenshteinCost a b = 0 ↔ a.map toupper = b.map toupper := by
  rw [levenshteinCost_eq_lev a b ha hb]
  constructor
  · exact lev_eq_zero _ _
  · intro h
    rw [h, lev_self]

/-- C11, as stated, fails: for the empty string and a string of `2^32` characters the cost
`2^32` is returned as the `int` 0, although the upper-cased strings differ. -/
theorem ComputeLevenshteinDistance_zero_on_distinct :
    ComputeLevenshteinDistance [] (List.replicate (2 ^ 32) 'a') = 0 ∧
    ([] : List Char).map toupper ≠ (List.replicate (2 ^ 32) 'a').map toupper := by
  constructor
  · unfold ComputeLevenshteinDistance
    rw [levenshteinCost_nil_left, List.length_replicate]
    decide
  · intro h
    have hlen := congrArg List.length h
    rw [List.length_map, List.length_map, List.length_replicate] at hlen
    exact absurd hlen (by decide)

/-- C11, amended: for strings shorter than `2^32`, `ComputeLevenshteinDistance a b` is 0
exactly when the upper-cased strings are equal; the distance of every string (as long as
a `std::string` can be) to itself is 0, and so is the distance of "FOOD" to "food". -/
theorem ComputeLevenshteinDistance_zero_iff :
    (∀ a b : List Char, a.length < 2 ^ 32 → b.length < 2 ^ 32 →
      (ComputeLevenshteinDistance a b = 0 ↔ a.map toupper = b.map toupper)) ∧
    (∀ s : List Char, s.length < 2 ^ 63 → ComputeLevenshteinDistance s s = 0) ∧
    ComputeLevenshteinDistance "FOOD".toList "food".toList = 0 := by
  refine ⟨fun a b ha hb => ?_, fun s hs => ?_, by decide⟩
  · have ha1 : a.length < 2 ^ 63 := by omega
    have hb1 : b.length < 2 ^ 63 := by omega
    have hle := levenshteinCost_le_max a b ha1 hb1
    unfold ComputeLevenshteinDistance
    rw [toInt_eq_zero_iff _ (by omega)]
    exact levenshteinCost_eq_zero_iff a b ha1 hb1
  · unfold ComputeLevenshteinDistance
    rw [levenshteinCost_self s hs]
    decide

/-- C11, amended, at "Hello" and "hELLO": both are shorter than `2^32`, their upper-cased
forms are equal, and the distance is 0. -/
theorem ComputeLevenshteinDistance_zero_iff_witness :
    "Hello".toList.length < 2 ^ 32 ∧ "hELLO".toList.length < 2 ^ 32 ∧
    "Hello".toList.map toupper = "hELLO".toList.map toupper ∧
    ComputeLevenshteinDistance "Hello".toList "hELLO".toList = 0 :=
  ⟨by decide, by decide, by decide,
    (ComputeLevenshteinDistance_zero_iff.1 "Hello".toList "hELLO".toList (by decide)
      (by decide)).mpr (by decide)⟩

/-- C12, as stated, fails: for a string of `2^31` characters the length `2^31` is
returned as the `int` `-2^31`, in both argument orders. -/
theorem ComputeLevenshteinDistance_empty_long :
    (List.replicate (2 ^ 31) 'a').length = 2 ^ 31 ∧
    ComputeLevenshteinDistance [] (List.replicate (2 ^ 31) 'a') = -2 ^ 31 ∧
    ComputeLevenshteinDistance (List.replicate (2 ^ 31) 'a') [] = -2 ^ 31 := by
  refine ⟨List.length_replicate _ _, ?_, ?_⟩
  · unfold ComputeLevenshteinDistance
    rw [levenshteinCost_nil_left, List.length_replicate]
    decide
  · unfold ComputeLevenshteinDistance
    rw [levenshteinCost_nil_right, List.length_replicate]
    decide

/-- C12, amended: for every string `s` shorter than `2^31`,
`ComputeLevenshteinDistance("", s)` and `ComputeLevenshteinDistance(s, "")` both equal the
length of `s`. -/
theorem ComputeLevenshteinDistance_empty (s : List Char) (hs : s.length < 2 ^ 31) :
    ComputeLevenshteinDistance [] s = (s.length : Int) ∧
    ComputeLevenshteinDistance s [] = (s.length : Int) := by
  unfold ComputeLevenshteinDistance
  rw [levenshteinCost_nil_left, levenshteinCost_nil_right, toInt_of_lt _ hs]
  exact ⟨rfl, rfl⟩

/-- C12, amended, at "sitting". -/
theorem ComputeLevenshteinDistance_empty_witness :
    "sitting".toList.length < 2 ^ 31 ∧
    ComputeLevenshteinDistance [] "sitting".toList = 7 ∧
    ComputeLevenshteinDistance "sitting".toList [] = 7 :=
  ⟨by decide, ComputeLevenshteinDistance_empty "sitting".toList (by decide)⟩

/-- C17: for strings shorter than `2^31` the `size_t` cost computed by
`ComputeLevenshteinDistance` lies between the absolute difference of the lengths and the
larger of the lengths, hence below `2^31`, and the `int` returned is that cost: it is not
negative and obeys the same bounds. -/
theorem ComputeLevenshteinDistance_bounds (a b : List Char) (ha : a.length < 2 ^ 31)
    (hb : b.length < 2 ^ 31) :
    ComputeLevenshteinDistance a b = (levenshteinCost a b : Int) ∧
    levenshteinCost a b < 2 ^ 31 ∧
    |(a.length : Int) - (b.length : Int)| ≤ ComputeLevenshteinDistance a b ∧
    ComputeLevenshteinDistance a b ≤ max (a.length : Int) (b.length : Int) ∧
    0 ≤ ComputeLevenshteinDistance a b := by
  have ha1 : a.length < 2 ^ 63 := by omega
  have hb1 : b.length < 2 ^ 63 := by omega
  have hle := levenshteinCost_le_max a b ha1 hb1
  have hlow := lev_length_bounds (a.map toupper) (b.map toupper)
  rw [← levenshteinCost_eq_lev a b ha1 hb1, List.length_map, List.length_map] at hlow
  have hlt : levenshteinCost a b < 2 ^ 31 := by omega
  have hval : ComputeLevenshteinDistance a b = (levenshteinCost a b : Int) := by
    unfold ComputeLevenshteinDistance
    exact toInt_of_lt _ hlt
  refine ⟨hval, hlt, ?_, ?_, ?_⟩
  · rw [hval, abs_le]
    omega
  · rw [hval]
    omega
  · rw [hval]
    omega

/-- C17, at "kitten" and "sitting": the lengths are 6 and 7 and the value 3 lies between
1 and 7. -/
theorem ComputeLevenshteinDistance_bounds_witness :
    "kitten".toList.length < 2 ^ 31 ∧ "sitting".toList.length < 2 ^ 31 ∧
    |(("kitten".toList.length : Nat) : Int) - (("sitting".toList.length : Nat) : Int)|
      ≤ ComputeLevenshteinDistance "kitten".toList "sitting".toList ∧
    ComputeLevenshteinDistance "kitten".toList "sitting".toList
      ≤ max (("kitten".toList.length : Nat) : Int) (("sitting".toList.length : Nat) : Int) :=
  have h := ComputeLevenshteinDistance_bounds "kitten".toList "sitting".toList (by decide)
    (by decide)
  ⟨by decide, by decide, h.2.2.1, h.2.2.2.1⟩

/-! ## Copies of a `ChatBot` -/

/-- C13: copying a `ChatBot` whose image is absent, as `ChatBot()` builds it, dereferences
the empty image pointer: the copy constructor and the copy assignment (from a different
object) are undefined behaviour.  When the image is present both complete, the
destination gets the three handles of the source and the source is unchanged. -/
theorem ChatBot_copy_needs_image :
    (∀ (src this : ChatBot) (fresh : Nat), src._image = none →
      ChatBot.copyConstruct src fresh = none ∧
      ChatBot.copyAssign this src false fresh = none) ∧
    (∀ (src this : ChatBot) (fresh b : Nat), src._image = some b →
      ∃ dst1 dst2, ChatBot.copyConstruct src fresh = some (dst1, src) ∧
        ChatBot.copyAssign this src false fresh = some (dst2, src) ∧
        dst1._chatLogic = src._chatLogic ∧ dst1._rootNode = src._rootNode ∧
        dst1._currentNode = src._currentNode ∧
        dst2._chatLogic = src._chatLogic ∧ dst2._rootNode = src._rootNode ∧
        dst2._currentNode = src._currentNode) := by
  constructor
  · intro src this fresh h
    simp [ChatBot.copyConstruct, ChatBot.copyAssign, h]
  · intro src this fresh b h
    simp [ChatBot.copyConstruct, ChatBot.copyAssign, h]

/-- C13, at the `ChatBot` built by `ChatBot()`: its image is absent and both copies are
undefined; at the session of the example graph, whose image is present, both complete. -/
theorem ChatBot_copy_needs_image_witness :
    (ChatBot.new none)._image = none ∧
    ChatBot.copyConstruct (ChatBot.new none) 1 = none ∧
    ChatBot.copyAssign (sessionAtNode 0) (ChatBot.new none) false 1 = none ∧
    (sessionAtNode 0)._image = some 0 ∧
    ∃ dst1 dst2, ChatBot.copyConstruct (sessionAtNode 0) 1 = some (dst1, sessionAtNode 0) ∧
      ChatBot.copyAssign (ChatBot.new none) (sessionAtNode 0) false 1
        = some (dst2, sessionAtNode 0) ∧
      dst1._chatLogic = some 0 ∧ dst2._chatLogic = some 0 := by
  have h1 := ChatBot_copy_needs_image.1 (ChatBot.new none) (sessionAtNode 0) 1 rfl
  obtain ⟨dst1, dst2, h2, h3, h4, _, _, h5, _, _⟩ :=
    ChatBot_copy_needs_image.2 (sessionAtNode 0) (ChatBot.new none) 1 0 rfl
  exact ⟨rfl, h1.1, h1.2, rfl, dst1, dst2, h2, h3, h4, h5⟩

/-! ## What a migration keeps -/

/-- One delivered message that returns has moved the `ChatBot` of the session, as it was,
into the slot of the new owner and set its current node to that owner. -/
theorem SendMessageToChatbot_session {sort : List EdgeDist → List EdgeDist} {h : Heap}
    {l k : Nat} {message : CxxString} {rnd : Nat} {h' : Heap} (hs : SessionAt h l k)
    (hok : SendMessageToChatbot sort h l message rnd = .ok h') :
    ∃ k' nk n', h.nodes[k]? = some nk ∧ h'.nodes[k']? = some n' ∧
      n'._chatBot = { nk._chatBot with _currentNode := some k' } ∧ SessionAt h' l k' := by
  obtain ⟨k', hs', _⟩ := SendMessageToChatbot_SessionAt hs hok
  obtain ⟨⟨nk, hnk, hcur, hlog, hroot⟩, ⟨cl, hcl, hhandle⟩, hothers⟩ := hs
  simp only [SendMessageToChatbot, hcl, hhandle, hnk, ReceiveMessageFromUser, hcur] at hok
  split at hok
  · exact absurd hok (by simp)
  · rename_i newNode _
    rcases newNode with _ | t
    · simp [MoveChatbotToNewNode, hnk] at hok
    · obtain ⟨nk2, nt, l2, cl2, answer, h1, h2, h3, h4, h5, h6, h7⟩ :=
        MoveChatbotToNewNode_ok hok
      rw [hnk] at h1
      injection h1 with h1
      subst h1
      have htn : h'.nodes[t]?
          = some { nt with _chatBot := { nk._chatBot with _currentNode := some t } } := by
        rw [h6, List.getElem?_set_eq_of_lt _ (getElem?_lt h2)]
      have hkt : k' = t := by
        by_contra hne
        refine hs'.2.2 t _ htn (fun h0 => hne h0.symm) ⟨?_, ?_⟩
        · simp [hlog]
        · exact hroot
      subst hkt
      exact ⟨k', nk, _, hnk, htn, rfl, hs'⟩

/-- Along a conversation that returns the `ChatBot` of the session changes in its current
node only. -/
theorem runMessages_session {sort : List EdgeDist → List EdgeDist} {l : Nat} :
    ∀ (inputs : List (CxxString × Nat)) {h : Heap} {k : Nat} {h' : Heap},
      SessionAt h l k → runMessages sort l h inputs = .ok h' →
      ∃ k' n0 n', h.nodes[k]? = some n0 ∧ h'.nodes[k']? = some n' ∧
        n'._chatBot = { n0._chatBot with _currentNode := some k' } ∧ SessionAt h' l k' := by
  intro inputs
  induction inputs with
  | nil =>
    intro h k h' hs hrun
    simp only [runMessages] at hrun
    injection hrun with hrun
    subst hrun
    obtain ⟨nk, hnk, hcur, hlog, hroot⟩ := hs.1
    refine ⟨k, nk, nk, hnk, hnk, ?_, hs⟩
    cases hb : nk._chatBot with
    | mk im cu ro lo =>
      rw [hb] at hcur
      simp only at hcur
      subst hcur
      rfl
  | cons x rest ih =>
    intro h k h' hs hrun
    obtain ⟨message, rnd⟩ := x
    simp only [runMessages] at hrun
    rcases hstep : SendMessageToChatbot sort h l message rnd with h1 | h1 | _
    · rw [hstep] at hrun
      simp only [Outcome.andThen] at hrun
      obtain ⟨k1, nk, n1, hnk, hn1, hbot1, hs1⟩ := SendMessageToChatbot_session hs hstep
      obtain ⟨k', n0, n', hn0, hn', hbot, hs'⟩ := ih hs1 hrun
      rw [hn1] at hn0
      injection hn0 with hn0
      subst hn0
      refine ⟨k', nk, n', hnk, hn', ?_, hs'⟩
      rw [hbot, hbot1]
    · rw [hstep] at hrun
      simp [Outcome.andThen] at hrun
    · rw [hstep] at hrun
      simp [Outcome.andThen] at hrun

theorem SessionAt_exampleHeap_sent (sent : List CxxString) :
    SessionAt { exampleHeap with logics := [ { _chatBot := some 0, sent := sent } ] } 0 0 := by
  obtain ⟨h1, _, h3⟩ := SessionAt_exampleHeap
  exact ⟨h1, ⟨_, rfl, rfl⟩, h3⟩

/-- C14: a conversation that returns with the session in the node it started from (the
root, when the session was attached to the root) leaves in the slot of that node the very
`ChatBot` the slot held at the start: same current-node, root-node and chat-logic
handles, and same image.  Every delivered message that returns moves the `ChatBot` to the
slot of the next owner with its root-node, chat-logic and image handles unchanged and its
current node set to that owner.  And every conversation does return when each edge leads
to a node, each node has between 1 and `2^31` answers and at most `2^31` edges, the root
handle names a node and `std::sort` keeps the elements of the vector. -/
theorem session_round_trip_keeps_handles :
    (∀ (sort : List EdgeDist → List EdgeDist) (l r : Nat) (h h' : Heap)
      (inputs : List (CxxString × Nat)), SessionAt h l r →
      runMessages sort l h inputs = .ok h' → SessionAt h' l r →
      ∃ n0 n', h.nodes[r]? = some n0 ∧ h'.nodes[r]? = some n' ∧
        n'._chatBot._currentNode = n0._chatBot._currentNode ∧
        n'._chatBot._rootNode = n0._chatBot._rootNode ∧
        n'._chatBot._chatLogic = n0._chatBot._chatLogic ∧
        n'._chatBot = n0._chatBot) ∧
    (∀ (sort : List EdgeDist → List EdgeDist) (l k : Nat) (h h' : Heap)
      (message : CxxString) (rnd : Nat), SessionAt h l k →
      SendMessageToChatbot sort h l message rnd = .ok h' →
      ∃ k' nk n', h.nodes[k]? = some nk ∧ h'.nodes[k']? = some n' ∧ SessionAt h' l k' ∧
        n'._chatBot._rootNode = nk._chatBot._rootNode ∧
        n'._chatBot._chatLogic = nk._chatBot._chatLogic ∧
        n'._chatBot._image = nk._chatBot._image ∧
        n'._chatBot._currentNode = some k') ∧
    (∀ (sort : List EdgeDist → List EdgeDist) (l k : Nat) (h : Heap)
      (inputs : List (CxxString × Nat)), SessionAt h l k → GraphOk h → RootOk h k →
      SortKeeps sort → ∃ h', runMessages sort l h inputs = .ok h') := by
  refine ⟨?_, ?_, ?_⟩
  · intro sort l r h h' inputs hs hrun hback
    obtain ⟨k', n0, n', hn0, hn', hbot, hs'⟩ := runMessages_session inputs hs hrun
    have hk : k' = r := by
      obtain ⟨⟨cl, hcl, hh⟩, ⟨cl', hcl', hh'⟩⟩ := And.intro hs'.2.1 hback.2.1
      rw [hcl] at hcl'
      injection hcl' with hcl'
      subst hcl'
      rw [hh] at hh'
      injection hh'
    subst hk
    obtain ⟨nk, hnk, hcur, -, -⟩ := hs.1
    rw [hn0] at hnk
    injection hnk with hnk
    subst hnk
    have hsame : n'._chatBot = n0._chatBot := by
      rw [hbot, ← hcur]
    exact ⟨n0, n', hn0, hn', by rw [hsame], by rw [hsame], by rw [hsame], hsame⟩
  · intro sort l k h h' message rnd hs hok
    obtain ⟨k', nk, n', hnk, hn', hbot, hs'⟩ := SendMessageToChatbot_session hs hok
    exact ⟨k', nk, n', hnk, hn', hs', by rw [hbot], by rw [hbot], by rw [hbot], by rw [hbot]⟩
  · intro sort l k h inputs hs hg hr hsort
    exact runMessages_returns hsort inputs hs hg hr

/-- C14, on the example graph: "hai" moves the session from the root to node 1 and "x"
moves it back; the slot of the root then holds the `ChatBot` it held at the start. -/
theorem session_round_trip_keeps_handles_witness :
    SessionAt exampleHeap 0 0 ∧
    runMessages std_sort 0 exampleHeap [("hai".toList, 5), ("x".toList, 1)]
      = .ok { exampleHeap with
              logics := [ { _chatBot := some 0, sent := ["Hi there".toList, "Welcome".toList] } ] } ∧
    ∃ n0 n', exampleHeap.nodes[0]? = some n0 ∧
      ({ exampleHeap with
          logics := [ { _chatBot := some 0, sent := ["Hi there".toList, "Welcome".toList] } ] }
        : Heap).nodes[0]? = some n' ∧
      n'._chatBot._currentNode = n0._chatBot._currentNode ∧
      n'._chatBot._rootNode = n0._chatBot._rootNode ∧
      n'._chatBot._chatLogic = n0._chatBot._chatLogic ∧
      n'._chatBot = n0._chatBot :=
  have hrun : runMessages std_sort 0 exampleHeap [("hai".toList, 5), ("x".toList, 1)]
      = .ok { exampleHeap with
              logics := [ { _chatBot := some 0, sent := ["Hi there".toList, "Welcome".toList] } ] } := by
    decide
  ⟨SessionAt_exampleHeap, hrun,
    session_round_trip_keeps_handles.1 std_sort 0 0 exampleHeap _ _ SessionAt_exampleHeap hrun
      (SessionAt_exampleHeap_sent _)⟩

/-! ## Migration to the node that holds the session -/

/-- C15: whenever `MoveChatbotToNewNode` is called on a node that holds the session, with that
very node as target, and returns, the node is unchanged but for the current node of its
`ChatBot`, which is the node itself: it still holds the session, its chat-logic handle is
set, and the chat-logic, root and image handles are those it had before the call; the
other nodes are as before.  And the call does return when the chat logic of the session
is valid and the node has between 1 and `2^31` answers, as for a migration to another
node. -/
theorem MoveChatbotToNewNode_to_own_node :
    (∀ (h h' : Heap) (k rnd : Nat) (nk : GraphNode), h.nodes[k]? = some nk →
      holdsSession nk → MoveChatbotToNewNode h k (some k) rnd = .ok h' →
      ∃ n, h'.nodes[k]? = some n ∧
        n = { nk with _chatBot := { nk._chatBot with _currentNode := some k } } ∧
        holdsSession n ∧
        n._chatBot._chatLogic ≠ none ∧ n._chatBot._chatLogic = nk._chatBot._chatLogic ∧
        n._chatBot._rootNode ≠ none ∧ n._chatBot._rootNode = nk._chatBot._rootNode ∧
        n._chatBot._image = nk._chatBot._image ∧
        n._chatBot._currentNode = some k ∧
        ∀ j, j ≠ k → h'.nodes[j]? = h.nodes[j]?) ∧
    (∀ (h : Heap) (k rnd l : Nat) (nk : GraphNode) (cl : ChatLogic),
      h.nodes[k]? = some nk → nk._chatBot._chatLogic = some l → h.logics[l]? = some cl →
      1 ≤ nk._answers.length → nk._answers.length ≤ 2 ^ 31 →
      ∃ h', MoveChatbotToNewNode h k (some k) rnd = .ok h') := by
  constructor
  · intro h h' k rnd nk hnk hholds hok
    obtain ⟨nk2, nt, l, cl, answer, h1, h2, h3, h4, h5, h6, h7⟩ := MoveChatbotToNewNode_ok hok
    rw [hnk] at h1
    injection h1 with h1
    subst h1
    have hlt := getElem?_lt hnk
    rw [List.getElem?_set_eq_of_lt _ hlt] at h2
    injection h2 with h2
    subst h2
    have hn : h'.nodes[k]?
        = some { nk with _chatBot := { nk._chatBot with _currentNode := some k } } := by
      rw [h6, List.getElem?_set_eq_of_lt _ (by simpa using hlt)]
    refine ⟨_, hn, rfl, ⟨hholds.1, hholds.2⟩, hholds.1, rfl, hholds.2, rfl, rfl, rfl, ?_⟩
    intro j hj
    rw [h6, List.getElem?_set_ne (fun h0 => hj h0.symm),
      List.getElem?_set_ne (fun h0 => hj h0.symm)]
  · intro h k rnd l nk cl hnk hl hcl ha1 ha2
    exact MoveChatbotToNewNode_returns hnk hnk hl hcl ha1 ha2

/-- C15, on the example graph: the root holds the session and is its own target (the
fallback taken in the root); the call returns, the root still holds the session and the
chat logic has received the answer of the root. -/
theorem MoveChatbotToNewNode_to_own_node_witness :
    MoveChatbotToNewNode exampleHeap 0 (some 0) 7
      = .ok { exampleHeap with
              logics := [ { _chatBot := some 0, sent := ["Welcome".toList] } ] } ∧
    ∃ n, ({ exampleHeap with
            logics := [ { _chatBot := some 0, sent := ["Welcome".toList] } ] } : Heap).nodes[0]?
          = some n ∧
      n = { _childEdges := [ { _keywords := ["hi".toList], _childNode := some 1 },
                             { _keywords := ["bye".toList], _childNode := some 2 } ],
            _chatBot := { sessionAtNode 0 with _currentNode := some 0 }, _id := 0,
            _answers := ["Welcome".toList] } ∧
      holdsSession n ∧
      n._chatBot._chatLogic ≠ none ∧ n._chatBot._chatLogic = (sessionAtNode 0)._chatLogic ∧
      n._chatBot._rootNode ≠ none ∧ n._chatBot._rootNode = (sessionAtNode 0)._rootNode ∧
      n._chatBot._image = (sessionAtNode 0)._image ∧
      n._chatBot._currentNode = some 0 ∧
      ∀ j, j ≠ 0 → ({ exampleHeap with
            logics := [ { _chatBot := some 0, sent := ["Welcome".toList] } ] } : Heap).nodes[j]?
          = exampleHeap.nodes[j]? :=
  ⟨by decide,
    MoveChatbotToNewNode_to_own_node.1 exampleHeap _ 0 7 _ rfl (by decide) (by decide)⟩

/-! ## The chatbot handle of the chat logic -/

theorem lev_longKeyword_nil :
    lev (longKeyword.map toupper) ("".toList.map toupper) = 2 ^ 31 := by
  have he : "".toList.map toupper = [] := rfl
  rw [he, lev_nil_right, List.length_map]
  exact List.length_replicate _ _

theorem ComputeLevenshteinDistance_longKeyword_nil :
    ComputeLevenshteinDistance longKeyword "".toList = -2 ^ 31 := by
  have hlen : longKeyword.length = 2 ^ 31 := List.length_replicate _ _
  have he : "".toList = [] := rfl
  unfold ComputeLevenshteinDistance
  rw [he, levenshteinCost_nil_right, hlen]
  exact toInt_two_pow_31

theorem candidates_wrapNode :
    candidates "".toList wrapNode._childEdges 0 = [(0, 1), (1, -2 ^ 31)] := by
  have h : candidates "".toList wrapNode._childEdges 0
      = [(0, ComputeLevenshteinDistance "a".toList "".toList),
         (1, ComputeLevenshteinDistance longKeyword "".toList)] := rfl
  have h0 : ComputeLevenshteinDistance "a".toList "".toList = 1 := by decide
  rw [h, h0, ComputeLevenshteinDistance_longKeyword_nil]

/-- C2, as stated, fails for a keyword of `2^31` characters: the keyword "a" of the first
edge is at 1 edit from the empty message and the long keyword of the second edge at
`2^31` edits, but the distance `2^31` is returned as the `int` `-2^31`, the pair of the
second edge comes to the front of every ascending permutation of the pairs, and the
session is migrated to node 2, the target of the second edge. -/
theorem ReceiveMessageFromUser_wrapped_distance :
    longKeyword.length = 2 ^ 31 ∧
    IsLeast {n | EditsIn n ("a".toList.map toupper) ("".toList.map toupper)} 1 ∧
    IsLeast {n | EditsIn n (longKeyword.map toupper) ("".toList.map toupper)} (2 ^ 31) ∧
    candidates "".toList wrapNode._childEdges 0 = [(0, 1), (1, -2 ^ 31)] ∧
    ReceiveMessageFromUser std_sort wrapHeap (sessionAtNode 0) "".toList 0
      = MoveChatbotToNewNode wrapHeap 0 (some 2) 0 ∧
    (∀ sort : List EdgeDist → List EdgeDist,
      (sort [(0, 1), (1, -2 ^ 31)]).Perm [(0, 1), (1, -2 ^ 31)] →
      (sort [(0, 1), (1, -2 ^ 31)]).Pairwise (fun a b => ¬ b.2 < a.2) →
      ReceiveMessageFromUser sort wrapHeap (sessionAtNode 0) "".toList 0
        = MoveChatbotToNewNode wrapHeap 0 (some 2) 0) ∧
    ∃ h', MoveChatbotToNewNode wrapHeap 0 (some 2) 0 = .ok h' := by
  have hall : ∀ sort : List EdgeDist → List EdgeDist,
      (sort [(0, 1), (1, -2 ^ 31)]).Perm [(0, 1), (1, -2 ^ 31)] →
      (sort [(0, 1), (1, -2 ^ 31)]).Pairwise (fun a b => ¬ b.2 < a.2) →
      ReceiveMessageFromUser sort wrapHeap (sessionAtNode 0) "".toList 0
        = MoveChatbotToNewNode wrapHeap 0 (some 2) 0 := by
    intro sort hperm hasc
    have hlen : 0 < (sort [(0, 1), (1, -2 ^ 31)]).length := by
      rw [hperm.length_eq]; decide
    have hhead := List.getElem?_eq_getElem hlen
    obtain ⟨hmem, hmin⟩ := head_of_sorted_perm _ _ _ hperm hasc hhead
    have hx : (sort [(0, 1), (1, -2 ^ 31)])[0] = (1, -2 ^ 31) := by
      rcases List.mem_cons.mp hmem with h1 | h1
      · have h2 := hmin (1, -2 ^ 31) (by simp)
        rw [h1] at h2
        exact absurd h2 (by decide)
      · exact List.mem_singleton.mp h1
    rw [hx] at hhead
    have hsel := selectNewNode_of_head sort wrapNode (sessionAtNode 0)._rootNode "".toList
      (1, -2 ^ 31) { _keywords := [longKeyword], _childNode := some 2 } (by decide)
      (by rw [candidates_wrapNode]; exact List.cons_ne_nil _ _)
      (by rw [candidates_wrapNode]; exact hhead) rfl
    exact ReceiveMessageFromUser_of_select sort wrapHeap (sessionAtNode 0) "".toList 0 0
      wrapNode _ rfl rfl hsel
  refine ⟨List.length_replicate _ _, ?_, ?_, candidates_wrapNode,
    hall std_sort (by decide) (by decide), hall, ?_⟩
  · have h := lev_isLeast ("a".toList.map toupper) ("".toList.map toupper)
    have hv : lev ("a".toList.map toupper) ("".toList.map toupper) = 1 := by
      have he : "".toList.map toupper = [] := rfl
      rw [he, lev_nil_right]
      rfl
    rw [hv] at h
    exact h
  · have h := lev_isLeast (longKeyword.map toupper) ("".toList.map toupper)
    rw [lev_longKeyword_nil] at h
    exact h
  · exact @MoveChatbotToNewNode_returns wrapHeap 0 2 0 0 wrapNode _ _ rfl rfl rfl rfl
      (by decide) (by decide)
